import Mathlib

/-!
Verification development for the TimeMarketplaceFHE contract
(`contracts/TimeMarketplaceFHE.sol`) and the off-chain purchase
reconciliation indexer (`src/lib/contract.ts`, `fetchPurchaseHistory`).

Shallow embedding conventions:
* `uint256` values are `Nat`; Solidity 0.8 checked arithmetic is modelled by
  explicit `< 2 ^ 256` side conditions in each operation's precondition, and a
  failed check (like a failed `require`) makes the operation return `none`,
  which models an EVM revert: no state is produced, the caller keeps the
  pre-state, so atomicity of a reverted call is by construction.
* Addresses are `Nat` (`0` is the zero address).
* FHE ciphertext handles are opaque `Nat` identifiers allocated from a
  counter; the plaintext each handle encrypts is tracked in a state-level
  association list `handleVals` (the contract itself never reads it; it is
  what an honest decryption oracle would return for the handle).
* `FHE.allowThis` / `FHE.allow` ACL grants do not influence any contract
  behaviour in this file's scope and are not modelled;
  `FHE.makePubliclyDecryptable` returns its argument's handle (it is a pure
  ACL operation), so the write-back in `requestOfferReveal` leaves the stored
  struct unchanged and its ACL effect is recorded in `pubDecryptable`.
-/

namespace TimeMarket

/-- `2 ^ 256`, the modulus of `uint256`. -/
def U256 : Nat := 2 ^ 256

/-- `2 ^ 64`, the modulus of `uint64`. -/
def U64 : Nat := 2 ^ 64

/-- `2 ^ 32`, the modulus of `uint32`. -/
def U32 : Nat := 2 ^ 32

/-- Association-list read with a default, mirroring a Solidity `mapping`
read (missing keys give the zero value). -/
def alistGetD {κ α : Type} [DecidableEq κ] (m : List (κ × α)) (k : κ) (d : α) : α :=
  match m with
  | [] => d
  | p :: t => if p.1 = k then p.2 else alistGetD t k d

/-- Association-list read returning `none` for a missing key, mirroring a
JavaScript `Map.get`. -/
def alistGet? {κ α : Type} [DecidableEq κ] (m : List (κ × α)) (k : κ) : Option α :=
  match m with
  | [] => none
  | p :: t => if p.1 = k then some p.2 else alistGet? t k

/-- Association-list write, mirroring a Solidity `mapping` write and a
JavaScript `Map.set` (replaces the binding if the key is present). -/
def alistSet {κ α : Type} [DecidableEq κ] (m : List (κ × α)) (k : κ) (v : α) :
    List (κ × α) :=
  match m with
  | [] => [(k, v)]
  | p :: t => if p.1 = k then (k, v) :: t else p :: alistSet t k v

/-- `mapping(address => uint256[])`-style push: `m[k].push(v)`. -/
def alistAppend {κ : Type} [DecidableEq κ] (m : List (κ × List Nat)) (k : κ) (v : Nat) :
    List (κ × List Nat) :=
  alistSet m k (alistGetD m k [] ++ [v])

/-- The `Offer` struct of `TimeMarketplaceFHE`. The three `encrypted*`
fields hold opaque ciphertext handles (`euint64` / `euint32`). -/
structure Offer where
  id : Nat
  creator : Nat
  title : String
  description : String
  publicPrice : Nat
  duration : Nat
  slots : Nat
  availableSlots : Nat
  isActive : Bool
  createdAt : Nat
  expiresAt : Nat
  encryptedPrice : Nat
  encryptedDuration : Nat
  encryptedSlots : Nat
deriving DecidableEq

/-- The zero value of the `Offer` struct, returned by `offers[id]` for an
id that was never assigned. -/
def defaultOffer : Offer :=
  { id := 0, creator := 0, title := "", description := "", publicPrice := 0,
    duration := 0, slots := 0, availableSlots := 0, isActive := false,
    createdAt := 0, expiresAt := 0, encryptedPrice := 0, encryptedDuration := 0,
    encryptedSlots := 0 }

/-- The `Purchase` struct of `TimeMarketplaceFHE`. -/
structure Purchase where
  offerId : Nat
  buyer : Nat
  slots : Nat
  totalPrice : Nat
  timestamp : Nat
deriving DecidableEq

/-- One external value transfer performed by `purchaseOffer`
(`recipient.call{value: amount}("")`). -/
structure TransferRec where
  recipient : Nat
  amount : Nat
deriving DecidableEq

/-- Event `TallyRevealRequested(offerId, priceHandle, slotsHandle)`. -/
structure RevealEvent where
  offerId : Nat
  priceHandle : Nat
  slotsHandle : Nat
deriving DecidableEq

/-- Deployment-time immutable data: the `Ownable` owner (the deployer). -/
structure Config where
  owner : Nat
deriving DecidableEq

/-- The mutable storage of `TimeMarketplaceFHE`, plus the FHE bookkeeping
fields `nextHandle`, `handleVals`, `pubDecryptable` described in the header
comment. -/
structure MarketState where
  nextOfferId : Nat
  nextPurchaseId : Nat
  offers : List (Nat × Offer)
  purchases : List (Nat × Purchase)
  userOffers : List (Nat × List Nat)
  userPurchases : List (Nat × List Nat)
  activeOfferIds : List Nat
  totalOffersCreated : Nat
  totalPurchases : Nat
  totalVolume : Nat
  platformFee : Nat
  treasury : Nat
  nextHandle : Nat
  handleVals : List (Nat × Nat)
  pubDecryptable : List Nat
deriving DecidableEq

/-- `offers[i]` (zero struct for unassigned ids). -/
def MarketState.getOffer (s : MarketState) (i : Nat) : Offer :=
  alistGetD s.offers i defaultOffer

/-- The plaintext an honest decryption oracle returns for handle `h`. -/
def MarketState.handleVal (s : MarketState) (h : Nat) : Nat :=
  alistGetD s.handleVals h 0

/-- Storage right after the constructor ran: `nextOfferId = nextPurchaseId = 1`,
`platformFee = 500`, treasury as given, everything else empty/zero. -/
def initialState (treasury : Nat) : MarketState :=
  { nextOfferId := 1, nextPurchaseId := 1, offers := [], purchases := [],
    userOffers := [], userPurchases := [], activeOfferIds := [],
    totalOffersCreated := 0, totalPurchases := 0, totalVolume := 0,
    platformFee := 500, treasury := treasury, nextHandle := 1,
    handleVals := [], pubDecryptable := [] }

/-! ### Offer creation -/

/-- The plain-field `require`s shared by both creation entry points:
non-empty title and description, strictly positive price, duration, slots
(`bytes(_title).length > 0` is non-emptiness of the string). -/
def createFHEPre (title description : String) (price duration slots_ : Nat) : Prop :=
  title ≠ "" ∧ description ≠ "" ∧ 0 < price ∧ 0 < duration ∧ 0 < slots_

/-- The `require`s of the plaintext `createOffer`, which additionally checks
`_price <= type(uint64).max`. -/
def createPlainPre (title description : String) (price duration slots_ : Nat) : Prop :=
  createFHEPre title description price duration slots_ ∧ price ≤ U64 - 1

instance (title description : String) (price duration slots_ : Nat) :
    Decidable (createFHEPre title description price duration slots_) := by
  unfold createFHEPre; infer_instance

instance (title description : String) (price duration slots_ : Nat) :
    Decidable (createPlainPre title description price duration slots_) := by
  unfold createPlainPre; infer_instance

/-- Checked-arithmetic side conditions of creation: the id and counter
increments and `expiresAt = block.timestamp + _duration * 1 days` must not
overflow `uint256`. -/
def createArithOk (s : MarketState) (now duration : Nat) : Prop :=
  s.nextOfferId + 1 < U256 ∧ duration * 86400 < U256 ∧
  now + duration * 86400 < U256 ∧ s.totalOffersCreated + 1 < U256

instance (s : MarketState) (now duration : Nat) :
    Decidable (createArithOk s now duration) := by
  unfold createArithOk; infer_instance

/-- The `Offer` struct value both creation paths store: fresh id, the three
ciphertext handles freshly allocated, `availableSlots = _slots`,
`isActive = true`, `expiresAt = now + duration * 86400`. -/
def createdOffer (s : MarketState) (sender now : Nat) (title description : String)
    (price duration slots_ : Nat) : Offer :=
  { id := s.nextOfferId, creator := sender, title := title,
    description := description, publicPrice := price, duration := duration,
    slots := slots_, availableSlots := slots_, isActive := true,
    createdAt := now, expiresAt := now + duration * 86400,
    encryptedPrice := s.nextHandle, encryptedDuration := s.nextHandle + 1,
    encryptedSlots := s.nextHandle + 2 }

/-- The storage writes shared by both creation paths:
`offers[id] = o`, `userOffers[sender].push(id)`, `activeOfferIds.push(id)`,
`totalOffersCreated++`, and registration of the three handles' plaintexts
`pv`, `dv`, `sv`. -/
def insertOffer (s : MarketState) (sender : Nat) (o : Offer) (pv dv sv : Nat) :
    MarketState :=
  { s with
    nextOfferId := s.nextOfferId + 1,
    offers := alistSet s.offers o.id o,
    userOffers := alistAppend s.userOffers sender o.id,
    activeOfferIds := s.activeOfferIds ++ [o.id],
    totalOffersCreated := s.totalOffersCreated + 1,
    nextHandle := s.nextHandle + 3,
    handleVals :=
      alistSet (alistSet (alistSet s.handleVals s.nextHandle pv)
        (s.nextHandle + 1) dv) (s.nextHandle + 2) sv }

/-- `createOffer` (plaintext variant): validates, trivially encrypts
`uint64(_price)`, `uint32(_duration)`, `uint32(_slots)` (the casts truncate;
only the price is range-checked), and stores the offer. -/
def createOffer (s : MarketState) (sender now : Nat) (title description : String)
    (price duration slots_ : Nat) : Option MarketState :=
  if createPlainPre title description price duration slots_ ∧
      createArithOk s now duration then
    some (insertOffer s sender (createdOffer s sender now title description price duration slots_)
      price (duration % U32) (slots_ % U32))
  else none

/-- `createOfferWithFHE`: validates the plain fields, then imports the three
caller-supplied external ciphertexts via `FHE.fromExternal` (all three share
`inputProof`; `importOk` is the verdict of that proof verification, and
`extPrice`, `extDuration`, `extSlots` are the plaintexts the external
ciphertexts encrypt, reduced to their declared bit-widths), and stores the
offer. The plain-field checks precede the import, so an invalid plain field
fails the call for every import environment. -/
def createOfferWithFHE (s : MarketState) (sender now : Nat)
    (title description : String) (price duration slots_ : Nat)
    (extPrice extDuration extSlots : Nat) (importOk : Bool) : Option MarketState :=
  if createFHEPre title description price duration slots_ ∧ importOk = true ∧
      createArithOk s now duration then
    some (insertOffer s sender (createdOffer s sender now title description price duration slots_)
      (extPrice % U64) (extDuration % U32) (extSlots % U32))
  else none

/-! ### Purchase -/

/-- `feeAmount = (totalPrice * platformFee) / 10000`. -/
def feeAmountOf (totalPrice feeBps : Nat) : Nat := totalPrice * feeBps / 10000

/-- `creatorAmount = totalPrice - feeAmount`. -/
def creatorAmountOf (totalPrice feeBps : Nat) : Nat :=
  totalPrice - feeAmountOf totalPrice feeBps

/-- The `require`s and checked-arithmetic side conditions of
`purchaseOffer`, in source order: valid id, positive quantity, active offer,
enough slots, not expired, buyer is not the creator, the two multiplications
do not overflow, sufficient payment, and the counter updates do not
overflow. -/
def purchasePre (s : MarketState) (sender now msgValue offerId q : Nat) : Prop :=
  0 < offerId ∧ offerId < s.nextOfferId ∧
  0 < q ∧
  (s.getOffer offerId).isActive = true ∧
  q ≤ (s.getOffer offerId).availableSlots ∧
  now ≤ (s.getOffer offerId).expiresAt ∧
  sender ≠ (s.getOffer offerId).creator ∧
  (s.getOffer offerId).publicPrice * q < U256 ∧
  (s.getOffer offerId).publicPrice * q * s.platformFee < U256 ∧
  (s.getOffer offerId).publicPrice * q ≤ msgValue ∧
  s.nextPurchaseId + 1 < U256 ∧
  s.totalPurchases + 1 < U256 ∧
  s.totalVolume + (s.getOffer offerId).publicPrice * q < U256

instance (s : MarketState) (sender now msgValue offerId q : Nat) :
    Decidable (purchasePre s sender now msgValue offerId q) := by
  unfold purchasePre; infer_instance

/-- Success of the three external transfer legs of `purchaseOffer` under the
transfer environment `transferOk`: the fee leg runs only when
`feeAmount > 0`, the creator leg always runs, the refund leg runs only when
`msg.value > totalPrice`. A failing executed leg reverts the whole call. -/
def purchaseLegsOk (s : MarketState) (sender msgValue offerId q : Nat)
    (transferOk : Nat → Nat → Bool) : Prop :=
  (0 < feeAmountOf ((s.getOffer offerId).publicPrice * q) s.platformFee →
    transferOk s.treasury
      (feeAmountOf ((s.getOffer offerId).publicPrice * q) s.platformFee) = true) ∧
  transferOk (s.getOffer offerId).creator
    (creatorAmountOf ((s.getOffer offerId).publicPrice * q) s.platformFee) = true ∧
  ((s.getOffer offerId).publicPrice * q < msgValue →
    transferOk sender (msgValue - (s.getOffer offerId).publicPrice * q) = true)

instance (s : MarketState) (sender msgValue offerId q : Nat)
    (transferOk : Nat → Nat → Bool) :
    Decidable (purchaseLegsOk s sender msgValue offerId q transferOk) := by
  unfold purchaseLegsOk; infer_instance

/-- Replace the first occurrence of `x` by `z`. -/
def replaceFirst (l : List Nat) (x z : Nat) : List Nat :=
  match l with
  | [] => []
  | a :: t => if a = x then z :: t else a :: replaceFirst t x z

/-- `_removeFromActiveOffers`: the loop finds the first occurrence of the
id, overwrites it with the last element, pops the last element, and breaks;
with no occurrence the array is unchanged. -/
def removeFromActiveOffers (l : List Nat) (x : Nat) : List Nat :=
  if x ∈ l then (replaceFirst l x (l.getLast?.getD 0)).dropLast else l

/-- The storage after a successful `purchaseOffer`: `availableSlots`
decremented, deactivation and active-list removal when it reaches zero, the
new `Purchase` record, buyer index and counters updated. -/
def purchasedState (s : MarketState) (sender now offerId q : Nat) : MarketState :=
  { s with
    offers := alistSet s.offers offerId
      { s.getOffer offerId with
        availableSlots := (s.getOffer offerId).availableSlots - q,
        isActive :=
          if (s.getOffer offerId).availableSlots - q = 0 then false
          else (s.getOffer offerId).isActive },
    activeOfferIds :=
      if (s.getOffer offerId).availableSlots - q = 0 then
        removeFromActiveOffers s.activeOfferIds offerId
      else s.activeOfferIds,
    purchases := alistSet s.purchases s.nextPurchaseId
      { offerId := offerId, buyer := sender, slots := q,
        totalPrice := (s.getOffer offerId).publicPrice * q, timestamp := now },
    userPurchases := alistAppend s.userPurchases sender s.nextPurchaseId,
    nextPurchaseId := s.nextPurchaseId + 1,
    totalPurchases := s.totalPurchases + 1,
    totalVolume := s.totalVolume + (s.getOffer offerId).publicPrice * q }

/-- The value transfers a successful `purchaseOffer` performs, in order:
fee to treasury (when positive), creator amount to the creator, overpayment
refund to the buyer (when `msg.value > totalPrice`). -/
def purchaseTransfers (s : MarketState) (sender msgValue offerId q : Nat) :
    List TransferRec :=
  (if 0 < feeAmountOf ((s.getOffer offerId).publicPrice * q) s.platformFee then
    [{ recipient := s.treasury,
       amount := feeAmountOf ((s.getOffer offerId).publicPrice * q) s.platformFee }]
  else []) ++
  [{ recipient := (s.getOffer offerId).creator,
     amount := creatorAmountOf ((s.getOffer offerId).publicPrice * q) s.platformFee }] ++
  (if (s.getOffer offerId).publicPrice * q < msgValue then
    [{ recipient := sender,
       amount := msgValue - (s.getOffer offerId).publicPrice * q }]
  else [])

/-- `purchaseOffer(_offerId, _slots)` with `msg.sender = sender`,
`block.timestamp = now`, `msg.value = msgValue`. A reverted call (failed
`require`, overflow, or failed transfer leg) returns `none` and persists
nothing. -/
def purchaseOffer (s : MarketState) (sender now msgValue offerId q : Nat)
    (transferOk : Nat → Nat → Bool) : Option (MarketState × List TransferRec) :=
  if purchasePre s sender now msgValue offerId q ∧
      purchaseLegsOk s sender msgValue offerId q transferOk then
    some (purchasedState s sender now offerId q,
      purchaseTransfers s sender msgValue offerId q)
  else none

/-! ### Deactivation, reveal, callback -/

/-- `deactivateOffer(_offerId)`: only the creator or the owner, only while
active; flips `isActive` and removes the id from `activeOfferIds`. -/
def deactivateOffer (cfg : Config) (s : MarketState) (sender offerId : Nat) :
    Option MarketState :=
  if (0 < offerId ∧ offerId < s.nextOfferId) ∧
      (sender = (s.getOffer offerId).creator ∨ sender = cfg.owner) ∧
      (s.getOffer offerId).isActive = true then
    some { s with
      offers := alistSet s.offers offerId { s.getOffer offerId with isActive := false },
      activeOfferIds := removeFromActiveOffers s.activeOfferIds offerId }
  else none

/-- `requestOfferReveal(_offerId)`: only the creator or the owner; marks the
offer's price and slots handles publicly decryptable and emits
`TallyRevealRequested` carrying exactly those two handles. -/
def requestOfferReveal (cfg : Config) (s : MarketState) (sender offerId : Nat) :
    Option (MarketState × RevealEvent) :=
  if (0 < offerId ∧ offerId < s.nextOfferId) ∧
      (sender = (s.getOffer offerId).creator ∨ sender = cfg.owner) then
    some ({ s with
      pubDecryptable := s.pubDecryptable ++
        [(s.getOffer offerId).encryptedPrice, (s.getOffer offerId).encryptedSlots] },
      { offerId := offerId,
        priceHandle := (s.getOffer offerId).encryptedPrice,
        slotsHandle := (s.getOffer offerId).encryptedSlots })
  else none

/-- The handle list `resolveOfferCallback` rebuilds from current storage and
passes to `FHE.checkSignatures`: the offer's stored price and slots handles,
in that order. -/
def resolveHandles (s : MarketState) (offerId : Nat) : List Nat :=
  [(s.getOffer offerId).encryptedPrice, (s.getOffer offerId).encryptedSlots]

/-- `resolveOfferCallback(_offerId, cleartexts, decryptionProof)`.
`cleartexts` is the decoded `(uint64, uint32)` pair carried by the blob
(`abi.decode` additionally validates the type bounds); `checkSig` is the
`FHE.checkSignatures` oracle, called on the handle list rebuilt from
storage. The function has no authorization check and does not read the
decryptability marks: `sender` (`msg.sender`) is unused. The first component
of the result is the post-state (`none` on revert); the second records the
handle list the verifier was invoked with (`none` when verification was
never reached). -/
def resolveOfferCallback (s : MarketState) (sender offerId : Nat)
    (cleartexts : Nat × Nat) (proof : Nat)
    (checkSig : List Nat → Nat × Nat → Nat → Bool) :
    Option MarketState × Option (List Nat) :=
  if 0 < offerId ∧ offerId < s.nextOfferId then
    if checkSig (resolveHandles s offerId) cleartexts proof = true then
      if cleartexts.1 < U64 ∧ cleartexts.2 < U32 then
        (some { s with
          offers := alistSet s.offers offerId
            { s.getOffer offerId with
              publicPrice := cleartexts.1, slots := cleartexts.2 } },
          some (resolveHandles s offerId))
      else (none, some (resolveHandles s offerId))
    else (none, some (resolveHandles s offerId))
  else (none, none)

/-! ### Step relation and reachability -/

/-- The cleartext pair an honest decryption oracle produces for the offer's
current price and slots handles. -/
def honestCleartexts (s : MarketState) (offerId : Nat) : Nat × Nat :=
  (s.handleVal ((s.getOffer offerId).encryptedPrice),
   s.handleVal ((s.getOffer offerId).encryptedSlots))

/-- One state-mutating contract call other than `resolveOfferCallback`. -/
inductive StepNR (cfg : Config) : MarketState → MarketState → Prop
  | createOffer (s s' : MarketState) (sender now : Nat) (title description : String)
      (price duration slots_ : Nat)
      (h : createOffer s sender now title description price duration slots_ = some s') :
      StepNR cfg s s'
  | createOfferWithFHE (s s' : MarketState) (sender now : Nat)
      (title description : String) (price duration slots_ : Nat)
      (extPrice extDuration extSlots : Nat) (importOk : Bool)
      (h : createOfferWithFHE s sender now title description price duration slots_
        extPrice extDuration extSlots importOk = some s') :
      StepNR cfg s s'
  | purchaseOffer (s s' : MarketState) (sender now msgValue offerId q : Nat)
      (transferOk : Nat → Nat → Bool) (tr : List TransferRec)
      (h : purchaseOffer s sender now msgValue offerId q transferOk = some (s', tr)) :
      StepNR cfg s s'
  | deactivateOffer (s s' : MarketState) (sender offerId : Nat)
      (h : deactivateOffer cfg s sender offerId = some s') :
      StepNR cfg s s'
  | requestOfferReveal (s s' : MarketState) (sender offerId : Nat) (ev : RevealEvent)
      (h : requestOfferReveal cfg s sender offerId = some (s', ev)) :
      StepNR cfg s s'

/-- A successful `resolveOfferCallback` call with an honest oracle: the
verifier accepts exactly the true plaintexts of the offer's current
handles. -/
inductive ResolveStep (cfg : Config) : MarketState → MarketState → Prop
  | mk (s s' : MarketState) (sender offerId proof : Nat)
      (h : (resolveOfferCallback s sender offerId (honestCleartexts s offerId) proof
        (fun _ _ _ => true)).1 = some s') :
      ResolveStep cfg s s'

/-- Any state-mutating contract call. -/
def Step (cfg : Config) (s s' : MarketState) : Prop :=
  StepNR cfg s s' ∨ ResolveStep cfg s s'

/-- Ledger states reachable from deployment (the constructor requires a
non-zero treasury). -/
def Reachable (cfg : Config) (treasury : Nat) (s : MarketState) : Prop :=
  treasury ≠ 0 ∧ Relation.ReflTransGen (Step cfg) (initialState treasury) s

/-- Ledger states reachable from deployment without ever calling
`resolveOfferCallback`. -/
def ReachableNR (cfg : Config) (treasury : Nat) (s : MarketState) : Prop :=
  treasury ≠ 0 ∧ Relation.ReflTransGen (StepNR cfg) (initialState treasury) s

/-! ### Purchase reconciliation indexer (`fetchPurchaseHistory`) -/

/-- A parsed `OfferPurchased` log entry for the buyer, paired with its
block's timestamp and its transaction hash. -/
structure PurchaseLog where
  offerId : Nat
  slots : Nat
  totalPrice : Nat
  timestamp : Nat
  txHash : Nat
deriving DecidableEq

/-- `buildPurchaseKey` applied to a log entry. The JavaScript key is the
string `` `${offerId}-${slots}-${totalPrice}-${timestamp}` ``, which is in
bijection with the 4-tuple of its components, so the key is modelled as that
tuple. -/
def logKey (lg : PurchaseLog) : Nat × Nat × Nat × Nat :=
  (lg.offerId, lg.slots, lg.totalPrice, lg.timestamp)

/-- `buildPurchaseKey` applied to a `Purchase` record's own fields. -/
def purchaseKeyOf (p : Purchase) : Nat × Nat × Nat × Nat :=
  (p.offerId, p.slots, p.totalPrice, p.timestamp)

/-- The `eventMap`: the logs are folded in order into a map from composite
key to transaction hash (`Map.set`, so a later log overwrites an earlier one
with the same key). -/
def buildEventMap (logs : List PurchaseLog) : List ((Nat × Nat × Nat × Nat) × Nat) :=
  logs.foldl (fun m lg => alistSet m (logKey lg) lg.txHash) []

/-- One entry of the reconciliation output: the purchase record, its id, the
offer it references (when the offers map has it), and the optional
transaction hash recovered from the event log. -/
structure HistoryItem where
  id : Nat
  purchase : Purchase
  offer : Option Offer
  txHash : Option Nat
deriving DecidableEq

/-- `fetchPurchaseHistory`, pure core: given the buyer's resolved purchase
records (id plus struct, in index order), the resolved offers map, and the
buyer-filtered `OfferPurchased` logs, produce one output entry per purchase
record, attaching the transaction hash of the log entry whose composite key
matches the record's own fields (or `none` when no such entry exists). -/
def fetchPurchaseHistory (purchaseStructs : List (Nat × Purchase))
    (offersMap : List (Nat × Offer)) (logs : List PurchaseLog) :
    List HistoryItem :=
  purchaseStructs.map fun p =>
    { id := p.1, purchase := p.2,
      offer := alistGet? offersMap p.2.offerId,
      txHash := alistGet? (buildEventMap logs) (purchaseKeyOf p.2) }

/-! ### Association-list lemmas -/

theorem alistGetD_alistSet_self {κ α : Type} [DecidableEq κ]
    (m : List (κ × α)) (k : κ) (v d : α) :
    alistGetD (alistSet m k v) k d = v := by
  induction m with
  | nil => simp [alistSet, alistGetD]
  | cons p t ih =>
    by_cases h : p.1 = k
    · simp [alistSet, alistGetD, h]
    · simp [alistSet, alistGetD, h, ih]

theorem alistGetD_alistSet_ne {κ α : Type} [DecidableEq κ]
    (m : List (κ × α)) (k k' : κ) (v d : α) (h : k' ≠ k) :
    alistGetD (alistSet m k v) k' d = alistGetD m k' d := by
  have hkk : k ≠ k' := Ne.symm h
  induction m with
  | nil => simp [alistSet, alistGetD, hkk]
  | cons p t ih =>
    by_cases hp : p.1 = k
    · subst hp
      simp [alistSet, alistGetD, hkk]
    · by_cases hp' : p.1 = k'
      · simp [alistSet, alistGetD, hp, hp', h]
      · simp [alistSet, alistGetD, hp, hp', ih]

theorem mem_alistSet_elim {κ α : Type} [DecidableEq κ]
    {m : List (κ × α)} {k : κ} {v : α} {p' : κ × α}
    (h : p' ∈ alistSet m k v) : p' = (k, v) ∨ p' ∈ m := by
  induction m with
  | nil => simpa [alistSet] using h
  | cons p t ih =>
    by_cases hp : p.1 = k
    · rw [alistSet, if_pos hp] at h
      rcases List.mem_cons.mp h with h | h
      · exact Or.inl h
      · exact Or.inr (List.mem_cons_of_mem _ h)
    · rw [alistSet, if_neg hp] at h
      rcases List.mem_cons.mp h with h | h
      · exact Or.inr (h ▸ List.mem_cons_self _ _)
      · rcases ih h with h | h
        · exact Or.inl h
        · exact Or.inr (List.mem_cons_of_mem _ h)

theorem mem_alistSet_self {κ α : Type} [DecidableEq κ]
    (m : List (κ × α)) (k : κ) (v : α) : (k, v) ∈ alistSet m k v := by
  induction m with
  | nil => simp [alistSet]
  | cons p t ih =>
    by_cases hp : p.1 = k
    · simp [alistSet, hp]
    · simp only [alistSet, if_neg hp]
      exact List.mem_cons_of_mem _ ih

theorem keys_alistSet_of_mem {κ α : Type} [DecidableEq κ]
    {m : List (κ × α)} {k : κ} (v : α) (h : k ∈ m.map Prod.fst) :
    (alistSet m k v).map Prod.fst = m.map Prod.fst := by
  induction m with
  | nil => simp at h
  | cons p t ih =>
    by_cases hp : p.1 = k
    · simp [alistSet, hp]
    · rw [List.map_cons] at h
      rcases List.mem_cons.mp h with h | h
      · exact absurd h.symm hp
      · simp [alistSet, hp, ih h]

theorem keys_alistSet_of_not_mem {κ α : Type} [DecidableEq κ]
    {m : List (κ × α)} {k : κ} (v : α) (h : k ∉ m.map Prod.fst) :
    (alistSet m k v).map Prod.fst = m.map Prod.fst ++ [k] := by
  induction m with
  | nil => simp [alistSet]
  | cons p t ih =>
    rw [List.map_cons, List.mem_cons] at h
    push_neg at h
    have hp : p.1 ≠ k := Ne.symm h.1
    simp [alistSet, hp, ih h.2]

theorem alistGetD_default_or_mem {κ α : Type} [DecidableEq κ]
    (m : List (κ × α)) (k : κ) (d : α) :
    alistGetD m k d = d ∨ (k, alistGetD m k d) ∈ m := by
  induction m with
  | nil => exact Or.inl rfl
  | cons p t ih =>
    by_cases hp : p.1 = k
    · right
      rw [alistGetD, if_pos hp, ← hp]
      exact List.mem_cons_self _ _
    · rw [alistGetD, if_neg hp]
      rcases ih with h | h
      · exact Or.inl h
      · exact Or.inr (List.mem_cons_of_mem _ h)

theorem mem_alistSet_of_nodup {κ α : Type} [DecidableEq κ]
    {m : List (κ × α)} {k : κ} {v : α} {p' : κ × α}
    (hn : (m.map Prod.fst).Nodup) (h : p' ∈ alistSet m k v) :
    p' = (k, v) ∨ (p' ∈ m ∧ p'.1 ≠ k) := by
  induction m with
  | nil => exact Or.inl (by simpa [alistSet] using h)
  | cons p t ih =>
    rw [List.map_cons, List.nodup_cons] at hn
    by_cases hp : p.1 = k
    · rw [alistSet, if_pos hp] at h
      rcases List.mem_cons.mp h with h | h
      · exact Or.inl h
      · refine Or.inr ⟨List.mem_cons_of_mem _ h, ?_⟩
        intro hk
        have hmem : p'.1 ∈ t.map Prod.fst := List.mem_map_of_mem Prod.fst h
        rw [hk, ← hp] at hmem
        exact hn.1 hmem
    · rw [alistSet, if_neg hp] at h
      rcases List.mem_cons.mp h with h | h
      · exact Or.inr ⟨h ▸ List.mem_cons_self _ _, h ▸ hp⟩
      · rcases ih hn.2 h with h | h
        · exact Or.inl h
        · exact Or.inr ⟨List.mem_cons_of_mem _ h.1, h.2⟩

/-! ### `_removeFromActiveOffers` lemmas -/

theorem length_replaceFirst (l : List Nat) (x z : Nat) :
    (replaceFirst l x z).length = l.length := by
  induction l with
  | nil => rfl
  | cons a t ih =>
    by_cases h : a = x <;> simp [replaceFirst, h, ih]

/-- The swap-with-last removal produces a permutation of `l.erase x`: it
removes exactly the first occurrence of `x`, up to reordering. -/
theorem removeFromActiveOffers_perm (l : List Nat) (x : Nat) :
    (removeFromActiveOffers l x).Perm (l.erase x) := by
  induction l with
  | nil => simp [removeFromActiveOffers]
  | cons a t ih =>
    by_cases hmem : x ∈ a :: t
    · rw [removeFromActiveOffers, if_pos hmem]
      by_cases hax : a = x
      · subst hax
        rw [List.erase_cons_head]
        cases t with
        | nil => simp [replaceFirst]
        | cons b u =>
          have hne : b :: u ≠ [] := List.cons_ne_nil _ _
          rw [List.getLast?_cons_cons, List.getLast?_eq_getLast_of_ne_nil hne]
          simp only [Option.getD_some]
          have hrf : replaceFirst (a :: b :: u) a ((b :: u).getLast hne) =
              ((b :: u).getLast hne) :: b :: u := by
            simp [replaceFirst]
          rw [hrf, List.dropLast_cons_of_ne_nil hne]
          have hsplit : (b :: u).dropLast ++ [(b :: u).getLast hne] = b :: u :=
            List.dropLast_append_getLast hne
          have hperm : ((b :: u).getLast hne :: (b :: u).dropLast).Perm
              ((b :: u).dropLast ++ [(b :: u).getLast hne]) :=
            (List.perm_append_singleton _ _).symm
          have h2 : ((b :: u).dropLast ++ [(b :: u).getLast hne]).Perm (b :: u) := by
            rw [hsplit]
          exact hperm.trans h2
      · have hxt : x ∈ t := by
          rcases List.mem_cons.mp hmem with h | h
          · exact absurd h.symm hax
          · exact h
        have htne : t ≠ [] := List.ne_nil_of_mem hxt
        have hz : (a :: t).getLast? = t.getLast? := by
          cases t with
          | nil => exact absurd rfl htne
          | cons b u => exact List.getLast?_cons_cons
        rw [hz, List.erase_cons_tail (by simpa using hax)]
        simp only [replaceFirst, if_neg hax]
        have hrne : replaceFirst t x (t.getLast?.getD 0) ≠ [] := by
          intro hc
          have hlen := length_replaceFirst t x (t.getLast?.getD 0)
          rw [hc] at hlen
          exact htne (List.length_eq_zero.mp hlen.symm)
        rw [List.dropLast_cons_of_ne_nil hrne]
        refine List.Perm.cons a ?_
        have hih := ih
        rw [removeFromActiveOffers, if_pos hxt] at hih
        exact hih
    · rw [removeFromActiveOffers, if_neg hmem, List.erase_of_not_mem hmem]

theorem count_removeFromActiveOffers_self (l : List Nat) (x : Nat) :
    (removeFromActiveOffers l x).count x = l.count x - 1 := by
  rw [(removeFromActiveOffers_perm l x).count_eq, List.count_erase_self]

theorem nodup_removeFromActiveOffers {l : List Nat} (x : Nat) (h : l.Nodup) :
    (removeFromActiveOffers l x).Nodup :=
  (removeFromActiveOffers_perm l x).nodup_iff.mpr (h.erase x)

theorem mem_removeFromActiveOffers_of_ne {l : List Nat} {x y : Nat}
    (hne : y ≠ x) (h : y ∈ l) : y ∈ removeFromActiveOffers l x :=
  ((removeFromActiveOffers_perm l x).mem_iff).mpr
    ((List.mem_erase_of_ne hne).mpr h)

theorem subset_removeFromActiveOffers (l : List Nat) (x : Nat) :
    removeFromActiveOffers l x ⊆ l := by
  intro y hy
  exact List.erase_subset _ _ ((removeFromActiveOffers_perm l x).mem_iff.mp hy)

/-! ### Inversion lemmas: what a successful call implies -/

theorem createOffer_some {s s' : MarketState} {sender now : Nat}
    {title description : String} {price duration slots_ : Nat}
    (h : createOffer s sender now title description price duration slots_ = some s') :
    createPlainPre title description price duration slots_ ∧
    createArithOk s now duration ∧
    s' = insertOffer s sender
      (createdOffer s sender now title description price duration slots_)
      price (duration % U32) (slots_ % U32) := by
  by_cases hc : createPlainPre title description price duration slots_ ∧
      createArithOk s now duration
  · rw [createOffer, if_pos hc] at h
    exact ⟨hc.1, hc.2, (Option.some.inj h).symm⟩
  · rw [createOffer, if_neg hc] at h
    exact absurd h (by simp)

theorem createOfferWithFHE_some {s s' : MarketState} {sender now : Nat}
    {title description : String} {price duration slots_ : Nat}
    {extPrice extDuration extSlots : Nat} {importOk : Bool}
    (h : createOfferWithFHE s sender now title description price duration slots_
      extPrice extDuration extSlots importOk = some s') :
    createFHEPre title description price duration slots_ ∧
    importOk = true ∧ createArithOk s now duration ∧
    s' = insertOffer s sender
      (createdOffer s sender now title description price duration slots_)
      (extPrice % U64) (extDuration % U32) (extSlots % U32) := by
  by_cases hc : createFHEPre title description price duration slots_ ∧
      importOk = true ∧ createArithOk s now duration
  · rw [createOfferWithFHE, if_pos hc] at h
    exact ⟨hc.1, hc.2.1, hc.2.2, (Option.some.inj h).symm⟩
  · rw [createOfferWithFHE, if_neg hc] at h
    exact absurd h (by simp)

theorem purchaseOffer_some {s s' : MarketState} {sender now msgValue offerId q : Nat}
    {transferOk : Nat → Nat → Bool} {tr : List TransferRec}
    (h : purchaseOffer s sender now msgValue offerId q transferOk = some (s', tr)) :
    purchasePre s sender now msgValue offerId q ∧
    purchaseLegsOk s sender msgValue offerId q transferOk ∧
    s' = purchasedState s sender now offerId q ∧
    tr = purchaseTransfers s sender msgValue offerId q := by
  by_cases hc : purchasePre s sender now msgValue offerId q ∧
      purchaseLegsOk s sender msgValue offerId q transferOk
  · rw [purchaseOffer, if_pos hc] at h
    have hp := Option.some.inj h
    rw [Prod.mk.injEq] at hp
    exact ⟨hc.1, hc.2, hp.1.symm, hp.2.symm⟩
  · rw [purchaseOffer, if_neg hc] at h
    exact absurd h (by simp)

theorem deactivateOffer_some {cfg : Config} {s s' : MarketState} {sender offerId : Nat}
    (h : deactivateOffer cfg s sender offerId = some s') :
    (0 < offerId ∧ offerId < s.nextOfferId) ∧
    (sender = (s.getOffer offerId).creator ∨ sender = cfg.owner) ∧
    (s.getOffer offerId).isActive = true ∧
    s' = { s with
      offers := alistSet s.offers offerId { s.getOffer offerId with isActive := false },
      activeOfferIds := removeFromActiveOffers s.activeOfferIds offerId } := by
  by_cases hc : (0 < offerId ∧ offerId < s.nextOfferId) ∧
      (sender = (s.getOffer offerId).creator ∨ sender = cfg.owner) ∧
      (s.getOffer offerId).isActive = true
  · rw [deactivateOffer, if_pos hc] at h
    exact ⟨hc.1, hc.2.1, hc.2.2, (Option.some.inj h).symm⟩
  · rw [deactivateOffer, if_neg hc] at h
    exact absurd h (by simp)

theorem requestOfferReveal_some {cfg : Config} {s s' : MarketState}
    {sender offerId : Nat} {ev : RevealEvent}
    (h : requestOfferReveal cfg s sender offerId = some (s', ev)) :
    (0 < offerId ∧ offerId < s.nextOfferId) ∧
    (sender = (s.getOffer offerId).creator ∨ sender = cfg.owner) ∧
    s' = { s with
      pubDecryptable := s.pubDecryptable ++
        [(s.getOffer offerId).encryptedPrice, (s.getOffer offerId).encryptedSlots] } ∧
    ev = { offerId := offerId,
           priceHandle := (s.getOffer offerId).encryptedPrice,
           slotsHandle := (s.getOffer offerId).encryptedSlots } := by
  by_cases hc : (0 < offerId ∧ offerId < s.nextOfferId) ∧
      (sender = (s.getOffer offerId).creator ∨ sender = cfg.owner)
  · rw [requestOfferReveal, if_pos hc] at h
    have hp := Option.some.inj h
    rw [Prod.mk.injEq] at hp
    exact ⟨hc.1, hc.2, hp.1.symm, hp.2.symm⟩
  · rw [requestOfferReveal, if_neg hc] at h
    exact absurd h (by simp)

theorem resolveOfferCallback_some {s s' : MarketState} {sender offerId : Nat}
    {cleartexts : Nat × Nat} {proof : Nat}
    {checkSig : List Nat → Nat × Nat → Nat → Bool}
    (h : (resolveOfferCallback s sender offerId cleartexts proof checkSig).1 = some s') :
    (0 < offerId ∧ offerId < s.nextOfferId) ∧
    checkSig (resolveHandles s offerId) cleartexts proof = true ∧
    (cleartexts.1 < U64 ∧ cleartexts.2 < U32) ∧
    s' = { s with
      offers := alistSet s.offers offerId
        { s.getOffer offerId with
          publicPrice := cleartexts.1, slots := cleartexts.2 } } := by
  by_cases h1 : 0 < offerId ∧ offerId < s.nextOfferId
  · by_cases h2 : checkSig (resolveHandles s offerId) cleartexts proof = true
    · by_cases h3 : cleartexts.1 < U64 ∧ cleartexts.2 < U32
      · rw [resolveOfferCallback, if_pos h1, if_pos h2, if_pos h3] at h
        exact ⟨h1, h2, h3, (Option.some.inj h).symm⟩
      · rw [resolveOfferCallback, if_pos h1, if_pos h2, if_neg h3] at h
        exact absurd h (by simp)
    · rw [resolveOfferCallback, if_pos h1, if_neg h2] at h
      exact absurd h (by simp)
  · rw [resolveOfferCallback, if_neg h1] at h
    exact absurd h (by simp)

/-! ### Invariants -/

/-- The spec's claimed invariant: every stored offer has
`availableSlots ≤ slots`. -/
def SlotsInv (s : MarketState) : Prop :=
  ∀ p ∈ s.offers, p.2.availableSlots ≤ p.2.slots

instance (s : MarketState) : Decidable (SlotsInv s) :=
  List.decidableBAll _ s.offers

/-- Bookkeeping invariant of reachable states: active ids are assigned ids,
the active list and the offers map have no duplicates, every stored active
offer is listed, and all stored/indexed ids are below `nextOfferId`. -/
def Inv (s : MarketState) : Prop :=
  (∀ x ∈ s.activeOfferIds, x < s.nextOfferId) ∧
  s.activeOfferIds.Nodup ∧
  (∀ p ∈ s.offers, p.2.isActive = true → p.1 ∈ s.activeOfferIds) ∧
  (s.offers.map Prod.fst).Nodup ∧
  (∀ p ∈ s.offers, p.1 < s.nextOfferId) ∧
  (∀ u ∈ s.userOffers, ∀ x ∈ u.2, x < s.nextOfferId)

instance (s : MarketState) : Decidable (Inv s) := by
  unfold Inv; infer_instance

/-- An offer read back as active is genuinely stored (the zero struct is
inactive). -/
theorem getOffer_mem_of_isActive {s : MarketState} {offerId : Nat}
    (h : (s.getOffer offerId).isActive = true) :
    (offerId, s.getOffer offerId) ∈ s.offers := by
  rcases alistGetD_default_or_mem s.offers offerId defaultOffer with hd | hm
  · rw [MarketState.getOffer, hd] at h
    exact absurd h (by simp [defaultOffer])
  · exact hm

theorem inv_insertOffer {s : MarketState} (hInv : Inv s) (sender : Nat) (o : Offer)
    (hid : o.id = s.nextOfferId) (pv dv sv : Nat) :
    Inv (insertOffer s sender o pv dv sv) := by
  obtain ⟨hA, hB, hC, hE, hF, hD⟩ := hInv
  refine ⟨?_, ?_, ?_, ?_, ?_, ?_⟩
  · intro x hx
    simp only [insertOffer] at hx ⊢
    rcases List.mem_append.mp hx with hx | hx
    · exact Nat.lt_succ_of_lt (hA x hx)
    · rw [List.mem_singleton.mp hx, hid]
      exact Nat.lt_succ_self _
  · simp only [insertOffer]
    rw [List.nodup_append]
    refine ⟨hB, List.nodup_singleton _, ?_⟩
    intro x hx hx'
    rw [List.mem_singleton.mp hx', hid] at hx
    exact absurd (hA _ hx) (Nat.lt_irrefl _)
  · intro p hp hact
    simp only [insertOffer] at hp ⊢
    rcases mem_alistSet_elim hp with hp | hp
    · rw [hp]
      exact List.mem_append_right _ (List.mem_singleton.mpr rfl)
    · exact List.mem_append_left _ (hC p hp hact)
  · simp only [insertOffer]
    have hnm : o.id ∉ s.offers.map Prod.fst := by
      intro hmem
      obtain ⟨p, hp, hpe⟩ := List.mem_map.mp hmem
      have hlt := hF p hp
      rw [hpe, hid] at hlt
      exact Nat.lt_irrefl _ hlt
    rw [keys_alistSet_of_not_mem _ hnm, List.nodup_append]
    refine ⟨hE, List.nodup_singleton _, ?_⟩
    intro x hx hx'
    rw [List.mem_singleton.mp hx'] at hx
    exact hnm hx
  · intro p hp
    simp only [insertOffer] at hp ⊢
    rcases mem_alistSet_elim hp with hp | hp
    · rw [hp, hid]
      exact Nat.lt_succ_self _
    · exact Nat.lt_succ_of_lt (hF p hp)
  · intro u hu x hx
    simp only [insertOffer, alistAppend] at hu ⊢
    rcases mem_alistSet_elim hu with hu | hu
    · rw [hu] at hx
      rcases List.mem_append.mp hx with hx | hx
      · rcases alistGetD_default_or_mem s.userOffers sender [] with hd | hm
        · rw [hd] at hx
          exact absurd hx (List.not_mem_nil x)
        · exact Nat.lt_succ_of_lt (hD _ hm x hx)
      · rw [List.mem_singleton.mp hx, hid]
        exact Nat.lt_succ_self _
    · exact Nat.lt_succ_of_lt (hD u hu x hx)

theorem inv_purchasedState {s : MarketState} (hInv : Inv s)
    {sender now msgValue offerId q : Nat}
    (hpre : purchasePre s sender now msgValue offerId q) :
    Inv (purchasedState s sender now offerId q) := by
  obtain ⟨hA, hB, hC, hE, hF, hD⟩ := hInv
  obtain ⟨hid0, hidlt, hq, hact, hqle, hexp, hne, hrest⟩ := hpre
  have hoffmem : (offerId, s.getOffer offerId) ∈ s.offers :=
    getOffer_mem_of_isActive hact
  have hmemact : offerId ∈ s.activeOfferIds := hC _ hoffmem hact
  have hkeymem : offerId ∈ s.offers.map Prod.fst :=
    List.mem_map_of_mem Prod.fst hoffmem
  refine ⟨?_, ?_, ?_, ?_, ?_, ?_⟩
  · intro x hx
    simp only [purchasedState] at hx ⊢
    by_cases hrem : (s.getOffer offerId).availableSlots - q = 0
    · rw [if_pos hrem] at hx
      exact hA x (subset_removeFromActiveOffers _ _ hx)
    · rw [if_neg hrem] at hx
      exact hA x hx
  · simp only [purchasedState]
    by_cases hrem : (s.getOffer offerId).availableSlots - q = 0
    · rw [if_pos hrem]
      exact nodup_removeFromActiveOffers _ hB
    · rw [if_neg hrem]
      exact hB
  · intro p hp hactp
    simp only [purchasedState] at hp ⊢
    rcases mem_alistSet_of_nodup hE hp with hp | hp
    · by_cases hrem : (s.getOffer offerId).availableSlots - q = 0
      · rw [hp] at hactp
        simp only [if_pos hrem] at hactp
        exact absurd hactp (by simp)
      · rw [if_neg hrem]
        rw [hp]
        exact hmemact
    · by_cases hrem : (s.getOffer offerId).availableSlots - q = 0
      · rw [if_pos hrem]
        exact mem_removeFromActiveOffers_of_ne hp.2 (hC p hp.1 hactp)
      · rw [if_neg hrem]
        exact hC p hp.1 hactp
  · simp only [purchasedState]
    rw [keys_alistSet_of_mem _ hkeymem]
    exact hE
  · intro p hp
    simp only [purchasedState] at hp ⊢
    rcases mem_alistSet_elim hp with hp | hp
    · rw [hp]
      exact hidlt
    · exact hF p hp
  · intro u hu x hx
    simp only [purchasedState] at hu
    exact hD u hu x hx

theorem inv_deactivatedState {s : MarketState} (hInv : Inv s) {offerId : Nat}
    (hidlt : offerId < s.nextOfferId)
    (hact : (s.getOffer offerId).isActive = true) :
    Inv { s with
      offers := alistSet s.offers offerId { s.getOffer offerId with isActive := false },
      activeOfferIds := removeFromActiveOffers s.activeOfferIds offerId } := by
  obtain ⟨hA, hB, hC, hE, hF, hD⟩ := hInv
  have hoffmem : (offerId, s.getOffer offerId) ∈ s.offers :=
    getOffer_mem_of_isActive hact
  have hkeymem : offerId ∈ s.offers.map Prod.fst :=
    List.mem_map_of_mem Prod.fst hoffmem
  refine ⟨?_, ?_, ?_, ?_, ?_, ?_⟩
  · intro x hx
    exact hA x (subset_removeFromActiveOffers _ _ hx)
  · exact nodup_removeFromActiveOffers _ hB
  · intro p hp hactp
    rcases mem_alistSet_of_nodup hE hp with hp | hp
    · rw [hp] at hactp
      exact absurd hactp (by simp)
    · exact mem_removeFromActiveOffers_of_ne hp.2 (hC p hp.1 hactp)
  · rw [keys_alistSet_of_mem _ hkeymem]
    exact hE
  · intro p hp
    rcases mem_alistSet_elim hp with hp | hp
    · rw [hp]
      exact hidlt
    · exact hF p hp
  · intro u hu x hx
    exact hD u hu x hx

theorem inv_resolvedState {s : MarketState} (hInv : Inv s) {offerId : Nat}
    (hidlt : offerId < s.nextOfferId) (p' sl' : Nat) :
    Inv { s with
      offers := alistSet s.offers offerId
        { s.getOffer offerId with publicPrice := p', slots := sl' } } := by
  obtain ⟨hA, hB, hC, hE, hF, hD⟩ := hInv
  refine ⟨hA, hB, ?_, ?_, ?_, hD⟩
  · intro p hp hactp
    rcases mem_alistSet_of_nodup hE hp with hp | hp
    · have hactp' : (s.getOffer offerId).isActive = true := by
        rw [hp] at hactp
        exact hactp
      have hmem : (offerId, s.getOffer offerId) ∈ s.offers :=
        getOffer_mem_of_isActive hactp'
      have hp1 : p.1 = offerId := by rw [hp]
      rw [hp1]
      exact hC _ hmem hactp'
    · exact hC p hp.1 hactp
  · by_cases hk : offerId ∈ s.offers.map Prod.fst
    · rw [keys_alistSet_of_mem _ hk]
      exact hE
    · rw [keys_alistSet_of_not_mem _ hk, List.nodup_append]
      refine ⟨hE, List.nodup_singleton _, ?_⟩
      intro x hx hx'
      rw [List.mem_singleton.mp hx'] at hx
      exact hk hx
  · intro p hp
    rcases mem_alistSet_elim hp with hp | hp
    · rw [hp]
      exact hidlt
    · exact hF p hp

theorem inv_step {cfg : Config} {s s' : MarketState} (hInv : Inv s)
    (h : Step cfg s s') : Inv s' := by
  rcases h with h | h
  · cases h with
    | createOffer sender now title description price duration slots_ h =>
      obtain ⟨_, _, hs'⟩ := createOffer_some h
      rw [hs']
      exact inv_insertOffer hInv sender _ rfl _ _ _
    | createOfferWithFHE sender now title description price duration slots_
        extPrice extDuration extSlots importOk h =>
      obtain ⟨_, _, _, hs'⟩ := createOfferWithFHE_some h
      rw [hs']
      exact inv_insertOffer hInv sender _ rfl _ _ _
    | purchaseOffer sender now msgValue offerId q transferOk tr h =>
      obtain ⟨hpre, _, hs', _⟩ := purchaseOffer_some h
      rw [hs']
      exact inv_purchasedState hInv hpre
    | deactivateOffer sender offerId h =>
      obtain ⟨hid, _, hact, hs'⟩ := deactivateOffer_some h
      rw [hs']
      exact inv_deactivatedState hInv hid.2 hact
    | requestOfferReveal sender offerId ev h =>
      obtain ⟨_, _, hs', _⟩ := requestOfferReveal_some h
      rw [hs']
      exact hInv
  · cases h with
    | mk sender offerId proof h =>
      obtain ⟨hid, _, _, hs'⟩ := resolveOfferCallback_some h
      rw [hs']
      exact inv_resolvedState hInv hid.2 _ _

theorem inv_initialState (treasury : Nat) : Inv (initialState treasury) := by
  refine ⟨?_, ?_, ?_, ?_, ?_, ?_⟩ <;> simp [initialState, Inv]

/-- Every reachable ledger state satisfies the bookkeeping invariant. -/
theorem reachable_inv {cfg : Config} {t : Nat} {s : MarketState}
    (h : Reachable cfg t s) : Inv s := by
  obtain ⟨_, h⟩ := h
  induction h with
  | refl => exact inv_initialState t
  | tail _ hstep ih => exact inv_step ih hstep

/-! ### Preservation of `availableSlots ≤ slots` by the non-callback
operations -/

theorem slotsInv_insertOffer {s : MarketState} (h : SlotsInv s) (sender : Nat)
    (o : Offer) (ho : o.availableSlots ≤ o.slots) (pv dv sv : Nat) :
    SlotsInv (insertOffer s sender o pv dv sv) := by
  intro p hp
  simp only [insertOffer] at hp
  rcases mem_alistSet_elim hp with hp | hp
  · rw [hp]
    exact ho
  · exact h p hp

theorem slotsInv_purchasedState {s : MarketState} (h : SlotsInv s)
    {sender now msgValue offerId q : Nat}
    (hpre : purchasePre s sender now msgValue offerId q) :
    SlotsInv (purchasedState s sender now offerId q) := by
  intro p hp
  simp only [purchasedState] at hp
  rcases mem_alistSet_elim hp with hp | hp
  · have hold : (s.getOffer offerId).availableSlots ≤ (s.getOffer offerId).slots :=
      h _ (getOffer_mem_of_isActive hpre.2.2.2.1)
    rw [hp]
    show (s.getOffer offerId).availableSlots - q ≤ (s.getOffer offerId).slots
    exact le_trans (Nat.sub_le _ _) hold
  · exact h p hp

theorem slotsInv_deactivatedState {s : MarketState} (h : SlotsInv s) (offerId : Nat) :
    SlotsInv { s with
      offers := alistSet s.offers offerId { s.getOffer offerId with isActive := false },
      activeOfferIds := removeFromActiveOffers s.activeOfferIds offerId } := by
  intro p hp
  rcases mem_alistSet_elim hp with hp | hp
  · rw [hp]
    show (s.getOffer offerId).availableSlots ≤ (s.getOffer offerId).slots
    rcases alistGetD_default_or_mem s.offers offerId defaultOffer with hd | hm
    · rw [MarketState.getOffer, hd]
      decide
    · exact h _ hm
  · exact h p hp

theorem slotsInv_stepNR {cfg : Config} {s s' : MarketState} (hs : SlotsInv s)
    (h : StepNR cfg s s') : SlotsInv s' := by
  cases h with
  | createOffer sender now title description price duration slots_ h =>
    obtain ⟨_, _, hs'⟩ := createOffer_some h
    rw [hs']
    exact slotsInv_insertOffer hs sender _ (Nat.le_refl _) _ _ _
  | createOfferWithFHE sender now title description price duration slots_
      extPrice extDuration extSlots importOk h =>
    obtain ⟨_, _, _, hs'⟩ := createOfferWithFHE_some h
    rw [hs']
    exact slotsInv_insertOffer hs sender _ (Nat.le_refl _) _ _ _
  | purchaseOffer sender now msgValue offerId q transferOk tr h =>
    obtain ⟨hpre, _, hs', _⟩ := purchaseOffer_some h
    rw [hs']
    exact slotsInv_purchasedState hs hpre
  | deactivateOffer sender offerId h =>
    obtain ⟨_, _, _, hs'⟩ := deactivateOffer_some h
    rw [hs']
    exact slotsInv_deactivatedState hs offerId
  | requestOfferReveal sender offerId ev h =>
    obtain ⟨_, _, hs', _⟩ := requestOfferReveal_some h
    rw [hs']
    exact hs

/-! ### Claim C1 -/

/-- Concrete owner configuration for the C1 counterexample trace. -/
def c1Cfg : Config := { owner := 100 }

/-- The deployed state of the C1 counterexample trace (treasury = 200). -/
def c1S0 : MarketState := initialState 200

/-- After `createOfferWithFHE` by address 1 with public `slots = 5` but an
encrypted slots ciphertext whose plaintext is 3 (the public fields and the
encrypted fields of an FHE offer are independent caller inputs). -/
def c1S1 : MarketState :=
  (createOfferWithFHE c1S0 1 0 "a" "b" 10 1 5 10 1 3 true).getD c1S0

/-- After an honest, successfully verified `resolveOfferCallback` on offer 1:
the decrypted slots value 3 overwrites `slots` while `availableSlots`
stays 5. -/
def c1S2 : MarketState :=
  ((resolveOfferCallback c1S1 1 1 (honestCleartexts c1S1 1) 0
    (fun _ _ _ => true)).1).getD c1S1

/-- Claim C1, counterexample: a reachable ledger state (deploy, then
`createOfferWithFHE`, then a successful honest `resolveOfferCallback`)
contains an offer with `availableSlots > slots`, so the invariant
`availableSlots ≤ slots` is not preserved by `resolveOfferCallback`. -/
theorem C1_counterexample : Reachable c1Cfg 200 c1S2 ∧ ¬ SlotsInv c1S2 := by
  constructor
  · refine ⟨by decide, ?_⟩
    have h1 : Step c1Cfg c1S0 c1S1 :=
      Or.inl (StepNR.createOfferWithFHE c1S0 c1S1 1 0 "a" "b" 10 1 5 10 1 3 true
        (by decide))
    have h2 : Step c1Cfg c1S1 c1S2 :=
      Or.inr (ResolveStep.mk c1S1 c1S2 1 1 0 (by decide))
    exact Relation.ReflTransGen.tail (Relation.ReflTransGen.single h1) h2
  · decide

/-- Claim C1, amended: `availableSlots ≤ slots` holds in every ledger state
reachable by `createOffer`, `createOfferWithFHE`, `purchaseOffer`,
`deactivateOffer` and `requestOfferReveal` (equivalently, it holds initially
and is preserved by those five operations); `resolveOfferCallback` can
violate it when the decrypted slots value is smaller than the offer's
current `availableSlots`. -/
theorem C1_amended_slots_invariant (cfg : Config) (t : Nat) (s : MarketState)
    (h : ReachableNR cfg t s) : SlotsInv s := by
  obtain ⟨_, h⟩ := h
  induction h with
  | refl =>
    intro p hp
    exact absurd hp (by simp [initialState])
  | tail _ hstep ih => exact slotsInv_stepNR ih hstep

/-- A concrete state with one offer, reached by a single `createOffer`. -/
def c1wS1 : MarketState :=
  (createOffer (initialState 200) 1 0 "a" "b" 10 1 5).getD (initialState 200)

/-- Witness for the amended C1 theorem at a concrete reachable state. -/
theorem C1_amended_slots_invariant_witness : SlotsInv c1wS1 :=
  C1_amended_slots_invariant c1Cfg 200 c1wS1
    ⟨by decide,
      Relation.ReflTransGen.single
        (StepNR.createOffer (initialState 200) c1wS1 1 0 "a" "b" 10 1 5 (by decide))⟩

/-! ### Claim C2 -/

/-- Claim C2: in any reachable ledger state, a successful
`purchaseOffer` of `q` slots decreases that offer's `availableSlots` by
exactly `q`; when it reaches `0` the offer's `isActive` flag becomes false
and its id, present exactly once in the active-id list before the call, is
removed exactly once (occurrence count drops from 1 to 0); otherwise the
offer stays active and the active-id list is untouched. -/
theorem C2_purchase_decrements_and_removes (cfg : Config) (t : Nat)
    (s s' : MarketState) (sender now msgValue offerId q : Nat)
    (transferOk : Nat → Nat → Bool) (tr : List TransferRec)
    (hreach : Reachable cfg t s)
    (h : purchaseOffer s sender now msgValue offerId q transferOk = some (s', tr)) :
    (s'.getOffer offerId).availableSlots + q = (s.getOffer offerId).availableSlots ∧
    ((s.getOffer offerId).availableSlots = q →
      (s'.getOffer offerId).isActive = false ∧
      s.activeOfferIds.count offerId = 1 ∧
      s'.activeOfferIds.count offerId = 0) ∧
    (q < (s.getOffer offerId).availableSlots →
      (s'.getOffer offerId).isActive = true ∧
      s'.activeOfferIds = s.activeOfferIds) := by
  obtain ⟨hpre, hlegs, hs', htr⟩ := purchaseOffer_some h
  obtain ⟨hA, hB, hC, hE, hF, hD⟩ := reachable_inv hreach
  have hact : (s.getOffer offerId).isActive = true := hpre.2.2.2.1
  have hqle : q ≤ (s.getOffer offerId).availableSlots := hpre.2.2.2.2.1
  have hcount1 : s.activeOfferIds.count offerId = 1 :=
    List.count_eq_one_of_mem hB (hC _ (getOffer_mem_of_isActive hact) hact)
  have hget : s'.getOffer offerId =
      { s.getOffer offerId with
        availableSlots := (s.getOffer offerId).availableSlots - q,
        isActive := if (s.getOffer offerId).availableSlots - q = 0 then false
          else (s.getOffer offerId).isActive } := by
    rw [hs']
    show alistGetD (alistSet s.offers offerId _) offerId defaultOffer = _
    exact alistGetD_alistSet_self _ _ _ _
  refine ⟨?_, ?_, ?_⟩
  · rw [hget]
    exact Nat.sub_add_cancel hqle
  · intro hav
    have hrem : (s.getOffer offerId).availableSlots - q = 0 := by
      rw [hav]
      exact Nat.sub_self q
    refine ⟨?_, hcount1, ?_⟩
    · rw [hget]
      show (if (s.getOffer offerId).availableSlots - q = 0 then false
        else (s.getOffer offerId).isActive) = false
      rw [if_pos hrem]
    · rw [hs']
      show (if (s.getOffer offerId).availableSlots - q = 0 then
        removeFromActiveOffers s.activeOfferIds offerId
        else s.activeOfferIds).count offerId = 0
      rw [if_pos hrem, count_removeFromActiveOffers_self, hcount1]
  · intro hlt
    have hrem : (s.getOffer offerId).availableSlots - q ≠ 0 :=
      Nat.sub_ne_zero_of_lt hlt
    refine ⟨?_, ?_⟩
    · rw [hget]
      show (if (s.getOffer offerId).availableSlots - q = 0 then false
        else (s.getOffer offerId).isActive) = true
      rw [if_neg hrem]
      exact hact
    · rw [hs']
      show (if (s.getOffer offerId).availableSlots - q = 0 then
        removeFromActiveOffers s.activeOfferIds offerId
        else s.activeOfferIds) = s.activeOfferIds
      rw [if_neg hrem]

/-- C2 witness trace: offer 1 created by address 1 with 5 slots at price
10. -/
def c2S1 : MarketState :=
  (createOffer (initialState 200) 1 0 "a" "b" 10 1 5).getD (initialState 200)

/-- C2 witness trace: address 2 buys all 5 slots. -/
def c2Res : MarketState × List TransferRec :=
  (purchaseOffer c2S1 2 0 50 1 5 (fun _ _ => true)).getD (c2S1, [])

/-- Witness for C2 at the concrete exhausting purchase. -/
theorem C2_purchase_decrements_and_removes_witness :
    (c2Res.1.getOffer 1).availableSlots + 5 = (c2S1.getOffer 1).availableSlots ∧
    ((c2S1.getOffer 1).availableSlots = 5 →
      (c2Res.1.getOffer 1).isActive = false ∧
      c2S1.activeOfferIds.count 1 = 1 ∧
      c2Res.1.activeOfferIds.count 1 = 0) ∧
    (5 < (c2S1.getOffer 1).availableSlots →
      (c2Res.1.getOffer 1).isActive = true ∧
      c2Res.1.activeOfferIds = c2S1.activeOfferIds) :=
  C2_purchase_decrements_and_removes { owner := 100 } 200 c2S1 c2Res.1 2 0 50 1 5
    (fun _ _ => true) c2Res.2
    ⟨by decide,
      Relation.ReflTransGen.single
        (Or.inl (StepNR.createOffer (initialState 200) c2S1 1 0 "a" "b" 10 1 5
          (by decide)))⟩
    (by decide)

/-! ### Claim C3 -/

/-- Claim C3: `purchaseOffer` succeeds only if the offer is active, the
quantity is at most `availableSlots`, the current time is at most
`expiresAt`, the buyer differs from the creator, and the payment covers
`publicPrice * quantity`; if any of these conditions fails the call reverts
(returns `none`, so no state change is persisted). -/
theorem C3_purchase_preconditions (s : MarketState)
    (sender now msgValue offerId q : Nat) (transferOk : Nat → Nat → Bool) :
    (∀ s' tr, purchaseOffer s sender now msgValue offerId q transferOk = some (s', tr) →
      (s.getOffer offerId).isActive = true ∧
      q ≤ (s.getOffer offerId).availableSlots ∧
      now ≤ (s.getOffer offerId).expiresAt ∧
      sender ≠ (s.getOffer offerId).creator ∧
      (s.getOffer offerId).publicPrice * q ≤ msgValue) ∧
    (((s.getOffer offerId).isActive = false ∨
      (s.getOffer offerId).availableSlots < q ∨
      (s.getOffer offerId).expiresAt < now ∨
      sender = (s.getOffer offerId).creator ∨
      msgValue < (s.getOffer offerId).publicPrice * q) →
      purchaseOffer s sender now msgValue offerId q transferOk = none) := by
  constructor
  · intro s' tr h
    obtain ⟨hpre, -, -, -⟩ := purchaseOffer_some h
    obtain ⟨-, -, -, h4, h5, h6, h7, -, -, h10, -⟩ := hpre
    exact ⟨h4, h5, h6, h7, h10⟩
  · intro hbad
    have hnc : ¬ (purchasePre s sender now msgValue offerId q ∧
        purchaseLegsOk s sender msgValue offerId q transferOk) := by
      rintro ⟨hpre, -⟩
      obtain ⟨-, -, -, h4, h5, h6, h7, -, -, h10, -⟩ := hpre
      rcases hbad with hb | hb | hb | hb | hb
      · rw [h4] at hb
        exact Bool.noConfusion hb
      · exact absurd h5 (Nat.not_le.mpr hb)
      · exact absurd h6 (Nat.not_le.mpr hb)
      · exact h7 hb
      · exact absurd h10 (Nat.not_le.mpr hb)
    rw [purchaseOffer, if_neg hnc]

/-- C3 witness state: offer 1 created by address 1 with 5 slots at
price 10. -/
def c3S1 : MarketState :=
  (createOffer (initialState 200) 1 0 "a" "b" 10 1 5).getD (initialState 200)

/-- C3 witness purchase result: address 2 buys 2 slots for 20. -/
def c3Res : MarketState × List TransferRec :=
  (purchaseOffer c3S1 2 0 20 1 2 (fun _ _ => true)).getD (c3S1, [])

/-- Witness for C3: the necessary conditions hold at a concrete successful
purchase, and a creator self-purchase attempt reverts. -/
theorem C3_purchase_preconditions_witness :
    ((c3S1.getOffer 1).isActive = true ∧ 2 ≤ (c3S1.getOffer 1).availableSlots ∧
      0 ≤ (c3S1.getOffer 1).expiresAt ∧ 2 ≠ (c3S1.getOffer 1).creator ∧
      (c3S1.getOffer 1).publicPrice * 2 ≤ 20) ∧
    purchaseOffer c3S1 1 0 20 1 2 (fun _ _ => true) = none :=
  ⟨(C3_purchase_preconditions c3S1 2 0 20 1 2 (fun _ _ => true)).1 c3Res.1 c3Res.2
      (by decide),
   (C3_purchase_preconditions c3S1 1 0 20 1 2 (fun _ _ => true)).2
      (Or.inr (Or.inr (Or.inr (Or.inl (by decide)))))⟩

/-! ### Claim C4 -/

/-- Claim C4: for every purchase total and every fee setting
`feeBps ≤ 1000`, the integer-division fee split is exact:
`feeAmount + creatorAmount = totalPrice` (these are the quantities
`purchaseOffer` computes and transfers). -/
theorem C4_fee_plus_creator_eq_total (totalPrice feeBps : Nat)
    (h : feeBps ≤ 1000) :
    feeAmountOf totalPrice feeBps + creatorAmountOf totalPrice feeBps = totalPrice := by
  have hfee : feeAmountOf totalPrice feeBps ≤ totalPrice := by
    rw [feeAmountOf]
    have hb : feeBps ≤ 10000 := le_trans h (by norm_num)
    have h1 : totalPrice * feeBps / 10000 ≤ totalPrice * 10000 / 10000 :=
      Nat.div_le_div_right (Nat.mul_le_mul_left _ hb)
    rw [Nat.mul_div_cancel totalPrice (by norm_num)] at h1
    exact h1
  rw [creatorAmountOf]
  exact Nat.add_sub_cancel' hfee

/-- Witness for C4 at the spec's scenario: total 200 at 500 bps gives
fee 10, creator amount 190. -/
theorem C4_fee_plus_creator_eq_total_witness :
    feeAmountOf 200 500 + creatorAmountOf 200 500 = 200 :=
  C4_fee_plus_creator_eq_total 200 500 (by decide)

/-! ### Claim C5 -/

/-- Claim C5: if any fund-transfer leg of `purchaseOffer` that would execute
fails under the transfer environment (fee to treasury when the fee is
positive, remainder to the creator, overpayment refund to the buyer), the
whole call reverts (`none`): no slot decrement, no purchase record, no index
or counter update is persisted. Conversely a successful call implies every
executed leg succeeded. -/
theorem C5_transfer_failure_aborts (s : MarketState)
    (sender now msgValue offerId q : Nat) (transferOk : Nat → Nat → Bool) :
    (¬ purchaseLegsOk s sender msgValue offerId q transferOk →
      purchaseOffer s sender now msgValue offerId q transferOk = none) ∧
    (∀ s' tr, purchaseOffer s sender now msgValue offerId q transferOk = some (s', tr) →
      purchaseLegsOk s sender msgValue offerId q transferOk) := by
  constructor
  · intro h
    have hnc : ¬ (purchasePre s sender now msgValue offerId q ∧
        purchaseLegsOk s sender msgValue offerId q transferOk) := by
      rintro ⟨-, hlegs⟩
      exact h hlegs
    rw [purchaseOffer, if_neg hnc]
  · intro s' tr h
    exact (purchaseOffer_some h).2.1

/-- C5 witness state: offer 1 created by address 1 with 5 slots at
price 10. -/
def c5S1 : MarketState :=
  (createOffer (initialState 200) 1 0 "a" "b" 10 1 5).getD (initialState 200)

/-- Witness for C5: under an environment in which every transfer fails, a
purchase that passes all plain checks still reverts. -/
theorem C5_transfer_failure_aborts_witness :
    purchaseOffer c5S1 2 0 20 1 2 (fun _ _ => false) = none :=
  (C5_transfer_failure_aborts c5S1 2 0 20 1 2 (fun _ _ => false)).1 (by decide)

/-! ### Claim C6 -/

/-- Postconditions of the shared creation write-set `insertOffer`, for a
fresh id in an invariant-satisfying state. -/
theorem insertOffer_post {s : MarketState} (hInv : Inv s) (sender : Nat) (o : Offer)
    (hid : o.id = s.nextOfferId) (pv dv sv : Nat) :
    (insertOffer s sender o pv dv sv).getOffer s.nextOfferId = o ∧
    (alistGetD (insertOffer s sender o pv dv sv).userOffers sender []).count
      s.nextOfferId = 1 ∧
    (insertOffer s sender o pv dv sv).activeOfferIds.count s.nextOfferId = 1 ∧
    (insertOffer s sender o pv dv sv).totalOffersCreated = s.totalOffersCreated + 1 := by
  obtain ⟨hA, hB, hC, hE, hF, hD⟩ := hInv
  refine ⟨?_, ?_, ?_, rfl⟩
  · show alistGetD (alistSet s.offers o.id o) s.nextOfferId defaultOffer = o
    rw [← hid]
    exact alistGetD_alistSet_self _ _ _ _
  · show (alistGetD (alistAppend s.userOffers sender o.id) sender []).count
      s.nextOfferId = 1
    rw [alistAppend, alistGetD_alistSet_self, List.count_append]
    have hz : (alistGetD s.userOffers sender []).count s.nextOfferId = 0 := by
      apply List.count_eq_zero.mpr
      intro hmem
      rcases alistGetD_default_or_mem s.userOffers sender ([] : List Nat) with hd | hm
      · rw [hd] at hmem
        exact List.not_mem_nil _ hmem
      · exact absurd (hD _ hm _ hmem) (Nat.lt_irrefl _)
    rw [hz, hid]
    simp
  · show (s.activeOfferIds ++ [o.id]).count s.nextOfferId = 1
    rw [List.count_append]
    have hz : s.activeOfferIds.count s.nextOfferId = 0 := by
      apply List.count_eq_zero.mpr
      intro hmem
      exact absurd (hA _ hmem) (Nat.lt_irrefl _)
    rw [hz, hid]
    simp

/-- Claim C6: for a creation call in a reachable state, on success the new
offer (stored at the fresh id `nextOfferId`) has `availableSlots = slots`
(both equal to the requested slot count), the new id occurs exactly once in
the creator's index and exactly once in the active-id list, and the
total-offers counter increases by one — for both `createOffer` and
`createOfferWithFHE`; and if any plain field is invalid (empty title or
description, zero price, duration or slots), both calls revert for every and
any import environment, i.e. before any encrypted import, no mutation. -/
theorem C6_creation_postconditions (cfg : Config) (t : Nat) (s : MarketState)
    (sender now : Nat) (title description : String)
    (price duration slots_ extPrice extDuration extSlots : Nat) (importOk : Bool)
    (hreach : Reachable cfg t s) :
    (∀ s', createOffer s sender now title description price duration slots_ = some s' →
      (s'.getOffer s.nextOfferId).availableSlots = slots_ ∧
      (s'.getOffer s.nextOfferId).availableSlots = (s'.getOffer s.nextOfferId).slots ∧
      (alistGetD s'.userOffers sender []).count s.nextOfferId = 1 ∧
      s'.activeOfferIds.count s.nextOfferId = 1 ∧
      s'.totalOffersCreated = s.totalOffersCreated + 1) ∧
    (∀ s', createOfferWithFHE s sender now title description price duration slots_
        extPrice extDuration extSlots importOk = some s' →
      (s'.getOffer s.nextOfferId).availableSlots = slots_ ∧
      (s'.getOffer s.nextOfferId).availableSlots = (s'.getOffer s.nextOfferId).slots ∧
      (alistGetD s'.userOffers sender []).count s.nextOfferId = 1 ∧
      s'.activeOfferIds.count s.nextOfferId = 1 ∧
      s'.totalOffersCreated = s.totalOffersCreated + 1) ∧
    ((title = "" ∨ description = "" ∨ price = 0 ∨ duration = 0 ∨ slots_ = 0) →
      createOffer s sender now title description price duration slots_ = none ∧
      createOfferWithFHE s sender now title description price duration slots_
        extPrice extDuration extSlots importOk = none) := by
  have hInv := reachable_inv hreach
  refine ⟨?_, ?_, ?_⟩
  · intro s' h
    obtain ⟨-, -, hs'⟩ := createOffer_some h
    obtain ⟨hg, hu, ha, hc⟩ := insertOffer_post hInv sender
      (createdOffer s sender now title description price duration slots_) rfl
      price (duration % U32) (slots_ % U32)
    rw [hs']
    rw [hg]
    exact ⟨rfl, rfl, hu, ha, hc⟩
  · intro s' h
    obtain ⟨-, -, -, hs'⟩ := createOfferWithFHE_some h
    obtain ⟨hg, hu, ha, hc⟩ := insertOffer_post hInv sender
      (createdOffer s sender now title description price duration slots_) rfl
      (extPrice % U64) (extDuration % U32) (extSlots % U32)
    rw [hs']
    rw [hg]
    exact ⟨rfl, rfl, hu, ha, hc⟩
  · intro hbad
    have hnFHE : ¬ createFHEPre title description price duration slots_ := by
      rw [createFHEPre]
      rintro ⟨ht, hd, hp, hdu, hsl⟩
      rcases hbad with hb | hb | hb | hb | hb
      · exact ht hb
      · exact hd hb
      · rw [hb] at hp
        exact Nat.lt_irrefl 0 hp
      · rw [hb] at hdu
        exact Nat.lt_irrefl 0 hdu
      · rw [hb] at hsl
        exact Nat.lt_irrefl 0 hsl
    constructor
    · rw [createOffer, if_neg]
      rintro ⟨⟨hfhe, -⟩, -⟩
      exact hnFHE hfhe
    · rw [createOfferWithFHE, if_neg]
      rintro ⟨hfhe, -⟩
      exact hnFHE hfhe

/-- C6 witness: offer created by address 1 on the fresh deployment. -/
def c6S1 : MarketState :=
  (createOffer (initialState 200) 1 0 "a" "b" 10 1 5).getD (initialState 200)

/-- Witness for C6: the postconditions at a concrete valid creation, and
rejection of an empty title for both entry points. -/
theorem C6_creation_postconditions_witness :
    ((c6S1.getOffer 1).availableSlots = 5 ∧
      (c6S1.getOffer 1).availableSlots = (c6S1.getOffer 1).slots ∧
      (alistGetD c6S1.userOffers 1 []).count 1 = 1 ∧
      c6S1.activeOfferIds.count 1 = 1 ∧
      c6S1.totalOffersCreated = (initialState 200).totalOffersCreated + 1) ∧
    (createOffer (initialState 200) 1 0 "" "b" 10 1 5 = none ∧
      createOfferWithFHE (initialState 200) 1 0 "" "b" 10 1 5 7 8 9 true = none) :=
  ⟨(C6_creation_postconditions { owner := 100 } 200 (initialState 200) 1 0 "a" "b"
      10 1 5 7 8 9 true ⟨by decide, Relation.ReflTransGen.refl⟩).1 c6S1 (by decide),
   (C6_creation_postconditions { owner := 100 } 200 (initialState 200) 1 0 "" "b"
      10 1 5 7 8 9 true ⟨by decide, Relation.ReflTransGen.refl⟩).2.2 (Or.inl rfl)⟩

/-! ### Claim C7 -/

/-- Claim C7: `resolveOfferCallback` invokes the signature verifier on
exactly the handle list rebuilt from the offer's current stored encrypted
price and slots handles — the list is independent of the caller-supplied
cleartexts, proof and sender; when verification fails the call reverts with
no field written; when it succeeds the decoded cleartext values are written
into the offer's public price and slots fields and nothing else changes. -/
theorem C7_resolve_binding_discipline (s : MarketState) (sender offerId : Nat)
    (cleartexts : Nat × Nat) (proof : Nat)
    (checkSig : List Nat → Nat × Nat → Nat → Bool) :
    ((resolveOfferCallback s sender offerId cleartexts proof checkSig).2 =
      if 0 < offerId ∧ offerId < s.nextOfferId then some (resolveHandles s offerId)
      else none) ∧
    (∀ sender' cleartexts' proof',
      (resolveOfferCallback s sender' offerId cleartexts' proof' checkSig).2 =
      (resolveOfferCallback s sender offerId cleartexts proof checkSig).2) ∧
    (checkSig (resolveHandles s offerId) cleartexts proof = false →
      (resolveOfferCallback s sender offerId cleartexts proof checkSig).1 = none) ∧
    (∀ s', (resolveOfferCallback s sender offerId cleartexts proof checkSig).1 = some s' →
      s' = { s with
             offers := alistSet s.offers offerId
               { s.getOffer offerId with
                 publicPrice := cleartexts.1, slots := cleartexts.2 } }) := by
  have hsnd : ∀ (sd : Nat) (ct : Nat × Nat) (pf : Nat),
      (resolveOfferCallback s sd offerId ct pf checkSig).2 =
      if 0 < offerId ∧ offerId < s.nextOfferId then some (resolveHandles s offerId)
      else none := by
    intro sd ct pf
    by_cases h1 : 0 < offerId ∧ offerId < s.nextOfferId
    · rw [if_pos h1]
      by_cases h2 : checkSig (resolveHandles s offerId) ct pf = true
      · by_cases h3 : ct.1 < U64 ∧ ct.2 < U32
        · rw [resolveOfferCallback, if_pos h1, if_pos h2, if_pos h3]
        · rw [resolveOfferCallback, if_pos h1, if_pos h2, if_neg h3]
      · rw [resolveOfferCallback, if_pos h1, if_neg h2]
    · rw [if_neg h1, resolveOfferCallback, if_neg h1]
  refine ⟨hsnd sender cleartexts proof, ?_, ?_, ?_⟩
  · intro sender' cleartexts' proof'
    rw [hsnd sender' cleartexts' proof', hsnd sender cleartexts proof]
  · intro hfail
    by_cases h1 : 0 < offerId ∧ offerId < s.nextOfferId
    · have h2 : ¬ checkSig (resolveHandles s offerId) cleartexts proof = true := by
        rw [hfail]
        exact Bool.false_ne_true
      rw [resolveOfferCallback, if_pos h1, if_neg h2]
    · rw [resolveOfferCallback, if_neg h1]
  · intro s' h
    exact (resolveOfferCallback_some h).2.2.2

/-- C7 witness: an FHE offer whose encrypted slots plaintext is 3. -/
def c7S1 : MarketState :=
  (createOfferWithFHE (initialState 200) 1 0 "a" "b" 10 1 5 10 1 3 true).getD
    (initialState 200)

/-- C7 witness: the state after a successful callback delivering
cleartexts (12, 2). -/
def c7Res : MarketState :=
  ((resolveOfferCallback c7S1 4 1 (12, 2) 0 (fun _ _ _ => true)).1).getD c7S1

/-- Witness for C7 at concrete inputs: the verifier sees exactly the stored
handle list, a failing verifier reverts the call, and a successful callback
writes exactly the decoded values. -/
theorem C7_resolve_binding_discipline_witness :
    (resolveOfferCallback c7S1 4 1 (12, 2) 0 (fun _ _ _ => true)).2 =
      some (resolveHandles c7S1 1) ∧
    (resolveOfferCallback c7S1 4 1 (12, 2) 0 (fun _ _ _ => false)).1 = none ∧
    c7Res = { c7S1 with
              offers := alistSet c7S1.offers 1
                { c7S1.getOffer 1 with publicPrice := 12, slots := 2 } } := by
  refine ⟨?_, ?_, ?_⟩
  · rw [(C7_resolve_binding_discipline c7S1 4 1 (12, 2) 0 (fun _ _ _ => true)).1,
      if_pos (by decide)]
  · exact (C7_resolve_binding_discipline c7S1 4 1 (12, 2) 0
      (fun _ _ _ => false)).2.2.1 rfl
  · exact (C7_resolve_binding_discipline c7S1 4 1 (12, 2) 0
      (fun _ _ _ => true)).2.2.2 c7Res (by decide)

/-! ### Claim C8 -/

/-- Claim C8: `requestOfferReveal` succeeds only when the caller is the
offer's creator or the platform owner (otherwise it reverts); on success it
adds exactly the offer's encrypted price and slots handles to the
publicly-decryptable set — every other state component is unchanged — and
the emitted event carries exactly those two handles. -/
theorem C8_request_reveal_auth_and_event (cfg : Config) (s : MarketState)
    (sender offerId : Nat) :
    (∀ s' ev, requestOfferReveal cfg s sender offerId = some (s', ev) →
      (sender = (s.getOffer offerId).creator ∨ sender = cfg.owner) ∧
      ev = { offerId := offerId,
             priceHandle := (s.getOffer offerId).encryptedPrice,
             slotsHandle := (s.getOffer offerId).encryptedSlots } ∧
      s' = { s with pubDecryptable := s.pubDecryptable ++
        [(s.getOffer offerId).encryptedPrice,
         (s.getOffer offerId).encryptedSlots] }) ∧
    (¬ (sender = (s.getOffer offerId).creator ∨ sender = cfg.owner) →
      requestOfferReveal cfg s sender offerId = none) := by
  constructor
  · intro s' ev h
    obtain ⟨-, hauth, hs', hev⟩ := requestOfferReveal_some h
    exact ⟨hauth, hev, hs'⟩
  · intro h
    rw [requestOfferReveal, if_neg]
    rintro ⟨-, hauth⟩
    exact h hauth

/-- C8 witness: offer 1 created by address 1. -/
def c8S1 : MarketState :=
  (createOffer (initialState 200) 1 0 "a" "b" 10 1 5).getD (initialState 200)

/-- C8 witness: the creator's successful reveal request. -/
def c8Res : MarketState × RevealEvent :=
  (requestOfferReveal { owner := 100 } c8S1 1 1).getD
    (c8S1, { offerId := 0, priceHandle := 0, slotsHandle := 0 })

/-- Witness for C8 at concrete inputs: the creator's call marks exactly the
two handles and emits them; a third party's call reverts. -/
theorem C8_request_reveal_auth_and_event_witness :
    ((1 = (c8S1.getOffer 1).creator ∨ (1 : Nat) = 100) ∧
      c8Res.2 = { offerId := 1,
                  priceHandle := (c8S1.getOffer 1).encryptedPrice,
                  slotsHandle := (c8S1.getOffer 1).encryptedSlots } ∧
      c8Res.1 = { c8S1 with pubDecryptable := c8S1.pubDecryptable ++
        [(c8S1.getOffer 1).encryptedPrice, (c8S1.getOffer 1).encryptedSlots] }) ∧
    requestOfferReveal { owner := 100 } c8S1 5 1 = none :=
  ⟨(C8_request_reveal_auth_and_event { owner := 100 } c8S1 1 1).1 c8Res.1 c8Res.2
      (by decide),
   (C8_request_reveal_auth_and_event { owner := 100 } c8S1 5 1).2 (by decide)⟩

/-! ### Claim C10 -/

/-- Success of `resolveOfferCallback` as a boolean function of the id-range
check, the verifier verdict on the stored handle list, and the decode
bounds. -/
theorem resolve_isSome_eq (s : MarketState) (sender offerId : Nat)
    (cleartexts : Nat × Nat) (proof : Nat)
    (checkSig : List Nat → Nat × Nat → Nat → Bool) :
    ((resolveOfferCallback s sender offerId cleartexts proof checkSig).1).isSome =
      (decide (0 < offerId ∧ offerId < s.nextOfferId) &&
       (checkSig (resolveHandles s offerId) cleartexts proof &&
        decide (cleartexts.1 < U64 ∧ cleartexts.2 < U32))) := by
  by_cases h1 : 0 < offerId ∧ offerId < s.nextOfferId
  · by_cases h2 : checkSig (resolveHandles s offerId) cleartexts proof = true
    · by_cases h3 : cleartexts.1 < U64 ∧ cleartexts.2 < U32
      · rw [resolveOfferCallback, if_pos h1, if_pos h2, if_pos h3]
        simp [h1, h2, h3]
      · rw [resolveOfferCallback, if_pos h1, if_pos h2, if_neg h3]
        simp [h1, h2, h3]
    · rw [resolveOfferCallback, if_pos h1, if_neg h2]
      rw [Bool.not_eq_true] at h2
      simp [h1, h2]
  · rw [resolveOfferCallback, if_neg h1]
    simp [h1]

/-- Claim C10: `resolveOfferCallback` has no authorization and no
reveal-state precondition: its entire result is independent of the caller,
its success is unchanged under any modification of the
publicly-decryptable marks (the only state `requestOfferReveal` touches),
and for an id in `[1, nextOfferId)` success is exactly the verifier's
verdict on the offer's current handles together with the decode bounds on
the cleartexts. -/
theorem C10_resolve_no_auth_no_reveal_precondition (s : MarketState) (offerId : Nat)
    (cleartexts : Nat × Nat) (proof : Nat)
    (checkSig : List Nat → Nat × Nat → Nat → Bool) :
    (∀ a b, resolveOfferCallback s a offerId cleartexts proof checkSig =
      resolveOfferCallback s b offerId cleartexts proof checkSig) ∧
    (∀ sender d,
      ((resolveOfferCallback { s with pubDecryptable := d } sender offerId
        cleartexts proof checkSig).1).isSome =
      ((resolveOfferCallback s sender offerId cleartexts proof checkSig).1).isSome) ∧
    ((0 < offerId ∧ offerId < s.nextOfferId) → ∀ sender,
      (((resolveOfferCallback s sender offerId cleartexts proof checkSig).1).isSome
        = true ↔
        (checkSig (resolveHandles s offerId) cleartexts proof = true ∧
         cleartexts.1 < U64 ∧ cleartexts.2 < U32))) := by
  refine ⟨?_, ?_, ?_⟩
  · intro a b
    rfl
  · intro sender d
    rw [resolve_isSome_eq { s with pubDecryptable := d } sender offerId cleartexts
      proof checkSig, resolve_isSome_eq s sender offerId cleartexts proof checkSig]
    rfl
  · intro h1 sender
    rw [resolve_isSome_eq s sender offerId cleartexts proof checkSig]
    simp [h1]

/-- C10 witness: an FHE offer created by address 1. -/
def c10S1 : MarketState :=
  (createOfferWithFHE (initialState 200) 1 0 "a" "b" 10 1 5 10 1 3 true).getD
    (initialState 200)

/-- Witness for C10 at concrete inputs: caller-independence, independence of
the decryptability marks, and the success criterion at offer 1. -/
theorem C10_resolve_no_auth_no_reveal_precondition_witness :
    (resolveOfferCallback c10S1 4 1 (12, 2) 0 (fun _ _ _ => true) =
      resolveOfferCallback c10S1 77 1 (12, 2) 0 (fun _ _ _ => true)) ∧
    (((resolveOfferCallback { c10S1 with pubDecryptable := [9, 9, 9] } 4 1 (12, 2) 0
        (fun _ _ _ => true)).1).isSome =
      ((resolveOfferCallback c10S1 4 1 (12, 2) 0 (fun _ _ _ => true)).1).isSome) ∧
    (((resolveOfferCallback c10S1 4 1 (12, 2) 0 (fun _ _ _ => true)).1).isSome = true ↔
      ((fun (_ : List Nat) (_ : Nat × Nat) (_ : Nat) => true) (resolveHandles c10S1 1)
          (12, 2) 0 = true ∧
        (12 : Nat) < U64 ∧ (2 : Nat) < U32)) :=
  ⟨(C10_resolve_no_auth_no_reveal_precondition c10S1 1 (12, 2) 0
      (fun _ _ _ => true)).1 4 77,
   (C10_resolve_no_auth_no_reveal_precondition c10S1 1 (12, 2) 0
      (fun _ _ _ => true)).2.1 4 [9, 9, 9],
   (C10_resolve_no_auth_no_reveal_precondition c10S1 1 (12, 2) 0
      (fun _ _ _ => true)).2.2 (by decide) 4⟩

/-! ### Claim C9: reconciliation lemmas -/

theorem alistGet?_alistSet {κ α : Type} [DecidableEq κ]
    (m : List (κ × α)) (k k' : κ) (v : α) :
    alistGet? (alistSet m k v) k' = if k' = k then some v else alistGet? m k' := by
  induction m with
  | nil =>
    by_cases h : k' = k
    · simp [alistSet, alistGet?, h]
    · simp [alistSet, alistGet?, h, Ne.symm h]
  | cons p t ih =>
    by_cases hp : p.1 = k
    · subst hp
      by_cases h : k' = p.1
      · simp [alistSet, alistGet?, h]
      · simp [alistSet, alistGet?, h, Ne.symm h]
    · by_cases h2 : p.1 = k'
      · have hk : ¬ k' = k := fun hh => hp (h2.trans hh)
        simp [alistSet, alistGet?, hp, h2, hk]
      · by_cases h3 : k' = k
        · subst h3
          simp [alistSet, alistGet?, hp, h2, ih]
        · simp [alistSet, alistGet?, hp, h2, h3, ih]

theorem isSome_get?_foldl (logs : List PurchaseLog)
    (acc : List ((Nat × Nat × Nat × Nat) × Nat)) (k : Nat × Nat × Nat × Nat) :
    (alistGet? (logs.foldl (fun m lg => alistSet m (logKey lg) lg.txHash) acc) k).isSome
      = true ↔
    ((alistGet? acc k).isSome = true ∨ k ∈ logs.map logKey) := by
  induction logs generalizing acc with
  | nil => simp
  | cons lg t ih =>
    rw [List.foldl_cons, ih, List.map_cons, List.mem_cons]
    by_cases hk : k = logKey lg
    · simp [alistGet?_alistSet, hk]
    · simp [alistGet?_alistSet, hk]

/-- A key hits the `eventMap` exactly when some log entry carries it. -/
theorem isSome_eventMap (logs : List PurchaseLog) (k : Nat × Nat × Nat × Nat) :
    (alistGet? (buildEventMap logs) k).isSome = true ↔ k ∈ logs.map logKey := by
  rw [buildEventMap, isSome_get?_foldl]
  simp [alistGet?]

theorem get?_foldl_eq_some (logs : List PurchaseLog)
    (acc : List ((Nat × Nat × Nat × Nat) × Nat)) (k : Nat × Nat × Nat × Nat) (h : Nat)
    (hg : alistGet? (logs.foldl (fun m lg => alistSet m (logKey lg) lg.txHash) acc) k
      = some h) :
    alistGet? acc k = some h ∨ ∃ lg ∈ logs, logKey lg = k ∧ lg.txHash = h := by
  induction logs generalizing acc with
  | nil => exact Or.inl hg
  | cons lg t ih =>
    rw [List.foldl_cons] at hg
    rcases ih _ hg with hacc | ⟨lg', hlg', hk', hh'⟩
    · rw [alistGet?_alistSet] at hacc
      by_cases hk : k = logKey lg
      · rw [if_pos hk] at hacc
        exact Or.inr ⟨lg, List.mem_cons_self _ _, hk.symm, Option.some.inj hacc⟩
      · rw [if_neg hk] at hacc
        exact Or.inl hacc
    · exact Or.inr ⟨lg', List.mem_cons_of_mem _ hlg', hk', hh'⟩

/-- A hash recovered from the `eventMap` comes from a log entry with
exactly that composite key. -/
theorem eventMap_eq_some (logs : List PurchaseLog) (k : Nat × Nat × Nat × Nat)
    (h : Nat) (hg : alistGet? (buildEventMap logs) k = some h) :
    ∃ lg ∈ logs, logKey lg = k ∧ lg.txHash = h := by
  rcases get?_foldl_eq_some logs [] k h hg with hacc | he
  · exact absurd hacc (by simp [alistGet?])
  · exact he

/-- For duplicate-free lists, the elements of the first that occur in the
second are as many as the elements of the second that occur in the first
(stated for arbitrary boolean membership tests to be robust to the
decidability instance used at the call site). -/
theorem length_filter_mem_comm {α : Type} [DecidableEq α] {l₁ l₂ : List α}
    (p₁ p₂ : α → Bool)
    (hp₁ : ∀ a, p₁ a = true ↔ a ∈ l₂) (hp₂ : ∀ a, p₂ a = true ↔ a ∈ l₁)
    (h₁ : l₁.Nodup) (h₂ : l₂.Nodup) :
    (l₁.filter p₁).length = (l₂.filter p₂).length := by
  have key : ∀ (u v : List α) (p : α → Bool), (∀ a, p a = true ↔ a ∈ v) → u.Nodup →
      (u.filter p).length = (u.toFinset ∩ v.toFinset).card := by
    intro u v p hp hu
    have hnd : (u.filter p).Nodup := hu.filter _
    have e1 : (u.filter p).length = (u.filter p).toFinset.card := by
      rw [List.card_toFinset, List.Nodup.dedup hnd]
    rw [e1, List.toFinset_filter]
    congr 1
    ext a
    simp only [Finset.mem_filter, Finset.mem_inter, List.mem_toFinset]
    constructor
    · rintro ⟨ha, hpa⟩
      exact ⟨ha, (hp a).mp hpa⟩
    · rintro ⟨ha, hav⟩
      exact ⟨ha, (hp a).mpr hav⟩
  rw [key l₁ l₂ p₁ hp₁ h₁, key l₂ l₁ p₂ hp₂ h₂, Finset.inter_comm]

theorem length_filter_not_add {α : Type} (p : α → Bool) (l : List α) :
    (l.filter (fun a => ! p a)).length + (l.filter p).length = l.length := by
  induction l with
  | nil => rfl
  | cons a t ih =>
    cases hpa : p a
    · simp [List.filter_cons, hpa]
      omega
    · simp [List.filter_cons, hpa]
      omega

/-- With duplicate-free keys, at most one list element carries a given
key. -/
theorem length_filter_key_le_one {α β : Type} [DecidableEq β] (l : List α)
    (f : α → β) (hnd : (l.map f).Nodup) (k : β) :
    (l.filter (fun a => decide (f a = k))).length ≤ 1 := by
  induction l with
  | nil => simp
  | cons a t ih =>
    rw [List.map_cons, List.nodup_cons] at hnd
    rw [List.filter_cons]
    by_cases h : f a = k
    · rw [if_pos (by simp [h])]
      have hempty : t.filter (fun b => decide (f b = k)) = [] := by
        rw [List.filter_eq_nil_iff]
        intro b hb
        simp only [decide_eq_true_eq]
        intro hfb
        apply hnd.1
        rw [h, ← hfb]
        exact List.mem_map_of_mem f hb
      rw [hempty]
      simp
    · rw [if_neg (by simp [h])]
      exact ih hnd.2

/-! ### Claim C9: counterexample and amended theorem -/

/-- Two purchase records of the same buyer with identical composite keys
(same offer, slots, total price and block timestamp). -/
def c9DupPurchases : List (Nat × Purchase) :=
  [(1, { offerId := 1, buyer := 7, slots := 1, totalPrice := 100, timestamp := 50 }),
   (2, { offerId := 1, buyer := 7, slots := 1, totalPrice := 100, timestamp := 50 })]

/-- A single surviving log entry matching that composite key. -/
def c9DupLogs : List PurchaseLog :=
  [{ offerId := 1, slots := 1, totalPrice := 100, timestamp := 50, txHash := 999 }]

/-- Claim C9, counterexample: with n = 2 purchase records and m = 1 matching
log entry (m < n), the reconciliation output attaches a transaction identity
to 2 records, not m = 1 — the single log entry supplies the identity of two
distinct purchase records. -/
theorem C9_counterexample :
    (c9DupLogs.filter (fun lg =>
      decide (logKey lg ∈ c9DupPurchases.map (fun p => purchaseKeyOf p.2)))).length
      = 1 ∧
    c9DupPurchases.length = 2 ∧
    ((fetchPurchaseHistory c9DupPurchases [] c9DupLogs).filter
      (fun e => e.txHash.isSome)).length = 2 := by
  decide

/-- Claim C9, amended: provided the composite keys of the buyer's purchase
records are pairwise distinct and the log entries' composite keys are
pairwise distinct, the reconciliation output has exactly one entry per
purchase record; with m the number of log entries whose key matches a
purchase record, exactly m output entries carry a transaction identity and
n − m carry none; every attached identity comes from the log entry with the
record's own key; and no log entry supplies the identity of two distinct
records. -/
theorem C9_amended_reconciliation (purchaseStructs : List (Nat × Purchase))
    (offersMap : List (Nat × Offer)) (logs : List PurchaseLog)
    (hP : (purchaseStructs.map (fun p => purchaseKeyOf p.2)).Nodup)
    (hL : (logs.map logKey).Nodup) :
    (fetchPurchaseHistory purchaseStructs offersMap logs).length =
      purchaseStructs.length ∧
    ((fetchPurchaseHistory purchaseStructs offersMap logs).filter
        (fun e => e.txHash.isSome)).length =
      (logs.filter (fun lg =>
        decide (logKey lg ∈ purchaseStructs.map (fun p => purchaseKeyOf p.2)))).length ∧
    ((fetchPurchaseHistory purchaseStructs offersMap logs).filter
        (fun e => e.txHash.isNone)).length =
      purchaseStructs.length - (logs.filter (fun lg =>
        decide (logKey lg ∈ purchaseStructs.map (fun p => purchaseKeyOf p.2)))).length ∧
    (∀ e ∈ fetchPurchaseHistory purchaseStructs offersMap logs, ∀ h,
      e.txHash = some h →
      ∃ lg ∈ logs, logKey lg = purchaseKeyOf e.purchase ∧ lg.txHash = h) ∧
    (∀ lg ∈ logs,
      ((fetchPurchaseHistory purchaseStructs offersMap logs).filter
        (fun e => e.txHash.isSome &&
          decide (purchaseKeyOf e.purchase = logKey lg))).length ≤ 1) := by
  have hSome : ((fetchPurchaseHistory purchaseStructs offersMap logs).filter
      (fun e => e.txHash.isSome)).length =
      (logs.filter (fun lg =>
        decide (logKey lg ∈ purchaseStructs.map (fun p => purchaseKeyOf p.2)))).length := by
    rw [fetchPurchaseHistory, List.filter_map, List.length_map]
    have hc : purchaseStructs.filter
        ((fun e : HistoryItem => e.txHash.isSome) ∘ fun p =>
          { id := p.1, purchase := p.2,
            offer := alistGet? offersMap p.2.offerId,
            txHash := alistGet? (buildEventMap logs) (purchaseKeyOf p.2) })
        = purchaseStructs.filter
        (fun a => decide (purchaseKeyOf a.2 ∈ logs.map logKey)) := by
      apply List.filter_congr
      intro a _
      show (alistGet? (buildEventMap logs) (purchaseKeyOf a.2)).isSome
        = decide (purchaseKeyOf a.2 ∈ logs.map logKey)
      by_cases hm : purchaseKeyOf a.2 ∈ logs.map logKey
      · rw [(isSome_eventMap logs (purchaseKeyOf a.2)).mpr hm]
        simp [hm]
      · have hns : ¬ (alistGet? (buildEventMap logs) (purchaseKeyOf a.2)).isSome = true :=
          fun hh => hm ((isSome_eventMap logs (purchaseKeyOf a.2)).mp hh)
        rw [Bool.not_eq_true] at hns
        rw [hns]
        simp [hm]
    rw [hc]
    have h1 : (purchaseStructs.filter
        (fun a => decide (purchaseKeyOf a.2 ∈ logs.map logKey))).length
        = ((purchaseStructs.map (fun p => purchaseKeyOf p.2)).filter
            (fun k => decide (k ∈ logs.map logKey))).length := by
      rw [List.filter_map, List.length_map]
      rfl
    have h2 : (logs.filter (fun lg =>
        decide (logKey lg ∈ purchaseStructs.map (fun p => purchaseKeyOf p.2)))).length
        = ((logs.map logKey).filter (fun k =>
            decide (k ∈ purchaseStructs.map (fun p => purchaseKeyOf p.2)))).length := by
      rw [List.filter_map, List.length_map]
      rfl
    rw [h1, h2]
    exact length_filter_mem_comm _ _ (fun a => by simp) (fun a => by simp) hP hL
  have hLen : (fetchPurchaseHistory purchaseStructs offersMap logs).length =
      purchaseStructs.length := by
    rw [fetchPurchaseHistory, List.length_map]
  refine ⟨hLen, hSome, ?_, ?_, ?_⟩
  · have hcn : (fetchPurchaseHistory purchaseStructs offersMap logs).filter
        (fun e => e.txHash.isNone)
        = (fetchPurchaseHistory purchaseStructs offersMap logs).filter
        (fun e => ! e.txHash.isSome) := by
      apply List.filter_congr
      intro e _
      cases e.txHash <;> rfl
    have hadd := length_filter_not_add (fun e : HistoryItem => e.txHash.isSome)
      (fetchPurchaseHistory purchaseStructs offersMap logs)
    rw [hcn]
    omega
  · intro e he h heq
    rw [fetchPurchaseHistory] at he
    rcases List.mem_map.mp he with ⟨p, hp, hpe⟩
    rw [← hpe] at heq
    have hget : alistGet? (buildEventMap logs) (purchaseKeyOf p.2) = some h := heq
    obtain ⟨lg, hlg, hk, hh⟩ := eventMap_eq_some logs _ h hget
    refine ⟨lg, hlg, ?_, hh⟩
    rw [← hpe]
    exact hk
  · intro lg hlg
    rw [fetchPurchaseHistory, List.filter_map, List.length_map]
    have hsplit : purchaseStructs.filter
        ((fun e : HistoryItem => e.txHash.isSome &&
          decide (purchaseKeyOf e.purchase = logKey lg)) ∘ fun p =>
          { id := p.1, purchase := p.2,
            offer := alistGet? offersMap p.2.offerId,
            txHash := alistGet? (buildEventMap logs) (purchaseKeyOf p.2) })
        = List.filter
          (fun a => (alistGet? (buildEventMap logs) (purchaseKeyOf a.2)).isSome)
          (purchaseStructs.filter (fun a => decide (purchaseKeyOf a.2 = logKey lg))) :=
      (List.filter_filter _ _).symm
    rw [hsplit]
    exact le_trans (List.length_filter_le _ _)
      (length_filter_key_le_one purchaseStructs (fun p => purchaseKeyOf p.2) hP
        (logKey lg))

/-- C9 witness data: two purchase records with distinct composite keys. -/
def c9wPurch : List (Nat × Purchase) :=
  [(1, { offerId := 1, buyer := 7, slots := 1, totalPrice := 100, timestamp := 50 }),
   (2, { offerId := 1, buyer := 7, slots := 2, totalPrice := 200, timestamp := 60 })]

/-- C9 witness data: a single log entry matching only the first record. -/
def c9wLogs : List PurchaseLog :=
  [{ offerId := 1, slots := 1, totalPrice := 100, timestamp := 50, txHash := 999 }]

/-- Witness for the amended C9 theorem: n = 2 records, m = 1 matching log
entry, so exactly 1 output entry carries an identity and 1 carries none. -/
theorem C9_amended_reconciliation_witness :
    (fetchPurchaseHistory c9wPurch [] c9wLogs).length = 2 ∧
    ((fetchPurchaseHistory c9wPurch [] c9wLogs).filter
      (fun e => e.txHash.isSome)).length = 1 ∧
    ((fetchPurchaseHistory c9wPurch [] c9wLogs).filter
      (fun e => e.txHash.isNone)).length = 1 := by
  obtain ⟨h1, h2, h3, -, -⟩ :=
    C9_amended_reconciliation c9wPurch [] c9wLogs (by decide) (by decide)
  refine ⟨?_, ?_, ?_⟩
  · rw [h1]
    decide
  · rw [h2]
    decide
  · rw [h3]
    decide

end TimeMarket
